import Mathlib

/-!
# DailyScribbles: `backend/static/js/main.js`

A shallow embedding of the page enhancer's handlers (generic form validation,
character counter, scroll handlers, clipboard copy, `apiCall`) and the
properties checked against it.

JavaScript strings are sequences of UTF-16 code units; they are modelled as
`List Nat`, so `.length` is `List.length` and the regular expression engine
(no `u` flag in the source) works on code units. Numbers are binary64 values,
carried as the rationals they denote, with every arithmetic result rounded to
nearest, ties to even.
-/

namespace DailyScribbles

/-! ## JavaScript strings -/

/-- A JavaScript string: its UTF-16 code units. -/
abbrev JSString := List Nat

/-- UTF-16 encoding of one Unicode scalar value. -/
def utf16Char (c : Char) : JSString :=
  if c.toNat < 0x10000 then [c.toNat]
  else [0xD800 + (c.toNat - 0x10000) / 0x400, 0xDC00 + (c.toNat - 0x10000) % 0x400]

/-- The JavaScript string denoted by a literal. -/
def utf16 (s : String) : JSString := s.toList.flatMap utf16Char

/-- ECMAScript `WhiteSpace` and `LineTerminator` code points: the set matched by
`\s` in a regular expression and stripped by `String.prototype.trim`. -/
def isJsWhitespace (c : Nat) : Bool :=
  c == 0x09 || c == 0x0A || c == 0x0B || c == 0x0C || c == 0x0D || c == 0x20 ||
  c == 0xA0 || c == 0x1680 || (0x2000 ≤ c && c ≤ 0x200A) ||
  c == 0x2028 || c == 0x2029 || c == 0x202F || c == 0x205F || c == 0x3000 || c == 0xFEFF

/-- The method `String.prototype.trim`: strips leading and trailing white space. -/
def jsTrim (s : JSString) : JSString :=
  ((s.dropWhile isJsWhitespace).reverse.dropWhile isJsWhitespace).reverse

/-- JavaScript truthiness of a string: the empty string is the only falsy one. -/
def strTruthy (s : JSString) : Bool := !s.isEmpty

/-! ## Regular expressions

The fragment of the regular expression syntax used by the source, matched by
Brzozowski derivatives. -/

/-- Regular expression syntax over code units. -/
inductive Regex where
  | empty : Regex
  | eps : Regex
  | lit (c : Nat) : Regex
  | notIn (p : Nat → Bool) : Regex
  | seq (r t : Regex) : Regex
  | alt (r t : Regex) : Regex
  | star (r : Regex) : Regex

namespace Regex

/-- The quantifier `+`: one or more repetitions. -/
def plus (r : Regex) : Regex := seq r (star r)

/-- Whether the expression matches the empty string. -/
def nullable : Regex → Bool
  | empty => false
  | eps => true
  | lit _ => false
  | notIn _ => false
  | seq r t => nullable r && nullable t
  | alt r t => nullable r || nullable t
  | star _ => true

/-- Derivative of an expression with respect to one code unit. -/
def deriv : Regex → Nat → Regex
  | empty, _ => empty
  | eps, _ => empty
  | lit c, x => if x = c then eps else empty
  | notIn p, x => if p x then empty else eps
  | seq r t, x =>
      if nullable r then alt (seq (deriv r x) t) (deriv t x) else seq (deriv r x) t
  | alt r t, x => alt (deriv r x) (deriv t x)
  | star r, x => seq (deriv r x) (star r)

/-- Whole-string match: what `test` computes for a pattern anchored by `^` and `$`
(no `m` flag). -/
def test (r : Regex) : JSString → Bool
  | [] => nullable r
  | c :: cs => test (deriv r c) cs

/-- Denotation of an expression: the set of strings it matches. -/
def Matches : Regex → JSString → Prop
  | empty, _ => False
  | eps, s => s = []
  | lit c, s => s = [c]
  | notIn p, s => ∃ c, s = [c] ∧ p c = false
  | seq r t, s => ∃ a b, s = a ++ b ∧ Matches r a ∧ Matches t b
  | alt r t, s => Matches r s ∨ Matches t s
  | star r, s => ∃ L : List JSString, s = L.flatten ∧ ∀ a ∈ L, a ≠ [] ∧ Matches r a

end Regex

/-- The class `[^\s@]`: any code unit that is neither white space nor `@`. -/
def notSpaceAt : Regex := Regex.notIn (fun c => isJsWhitespace c || c == 64)

/-- The body of `/^[^\s@]+@[^\s@]+\.[^\s@]+$/` (main.js line 96). -/
def emailRegex : Regex :=
  Regex.seq (Regex.plus notSpaceAt)
    (Regex.seq (Regex.lit 64)
      (Regex.seq (Regex.plus notSpaceAt)
        (Regex.seq (Regex.lit 46) (Regex.plus notSpaceAt))))

/-- A non-empty run of code units that are neither white space nor `@`: what
`[^\s@]+` matches. -/
def LocalPart (a : JSString) : Prop :=
  a ≠ [] ∧ ∀ x ∈ a, isJsWhitespace x = false ∧ x ≠ 64

instance : DecidablePred LocalPart :=
  fun a => inferInstanceAs (Decidable (a ≠ [] ∧ ∀ x ∈ a, isJsWhitespace x = false ∧ x ≠ 64))

/-! ## JavaScript numbers

Numbers are IEEE 754 binary64 values. A finite value is carried as the rational
it denotes; arithmetic rounds the exact result to the nearest binary64 value,
ties to even. Signed zeros are not distinguished (the measurements read by the
handlers are never `-0`). -/

/-- A JavaScript Number. -/
inductive JSNum where
  | nan : JSNum
  | posInf : JSNum
  | negInf : JSNum
  | fin (q : ℚ) : JSNum
deriving DecidableEq, Repr

/-- Nearest integer, ties to the even one. -/
def roundHalfEven (q : ℚ) : ℤ :=
  if q - ⌊q⌋ < 1 / 2 then ⌊q⌋
  else if 1 / 2 < q - ⌊q⌋ then ⌊q⌋ + 1
  else if ⌊q⌋ % 2 = 0 then ⌊q⌋ else ⌊q⌋ + 1

/-- Binary exponent of the binade of `q`, clamped at the subnormal range. -/
def binade (q : ℚ) : ℤ := max (Int.log 2 |q|) (-1022)

/-- Spacing of binary64 values in the binade of `q` (53-bit significand). -/
def ulp (q : ℚ) : ℚ := (2 : ℚ) ^ (binade q - 52)

/-- Magnitude of `q` rounded to a multiple of the spacing of its binade. -/
def roundMag (q : ℚ) : ℚ := roundHalfEven (|q| / ulp q) * ulp q

/-- Rounding of an exact result to binary64 (round to nearest, ties to even,
overflow to an infinity). -/
def toDouble (q : ℚ) : JSNum :=
  if (2 : ℚ) ^ (1024 : ℕ) ≤ roundMag q then (if 0 < q then JSNum.posInf else JSNum.negInf)
  else if 0 ≤ q then JSNum.fin (roundMag q) else JSNum.fin (-roundMag q)

/-- The rational is a finite binary64 value. -/
def IsDouble (q : ℚ) : Prop := toDouble q = JSNum.fin q

instance : DecidablePred IsDouble :=
  fun q => inferInstanceAs (Decidable (toDouble q = JSNum.fin q))

namespace JSNum

/-- The operator `-` on Numbers. -/
def sub : JSNum → JSNum → JSNum
  | fin a, fin b => toDouble (a - b)
  | nan, _ => nan
  | _, nan => nan
  | posInf, posInf => nan
  | negInf, negInf => nan
  | posInf, _ => posInf
  | negInf, _ => negInf
  | fin _, posInf => negInf
  | fin _, negInf => posInf

/-- The operator `/` on Numbers. -/
def div : JSNum → JSNum → JSNum
  | fin a, fin b =>
    if b = 0 then (if a = 0 then nan else if 0 < a then posInf else negInf)
    else toDouble (a / b)
  | nan, _ => nan
  | _, nan => nan
  | fin _, posInf => fin 0
  | fin _, negInf => fin 0
  | posInf, fin b => if 0 ≤ b then posInf else negInf
  | negInf, fin b => if 0 ≤ b then negInf else posInf
  | posInf, posInf => nan
  | posInf, negInf => nan
  | negInf, posInf => nan
  | negInf, negInf => nan

/-- The operator `*` on Numbers. -/
def mul : JSNum → JSNum → JSNum
  | fin a, fin b => toDouble (a * b)
  | nan, _ => nan
  | _, nan => nan
  | posInf, fin b => if b = 0 then nan else if 0 < b then posInf else negInf
  | negInf, fin b => if b = 0 then nan else if 0 < b then negInf else posInf
  | fin a, posInf => if a = 0 then nan else if 0 < a then posInf else negInf
  | fin a, negInf => if a = 0 then nan else if 0 < a then negInf else posInf
  | posInf, posInf => posInf
  | posInf, negInf => negInf
  | negInf, posInf => negInf
  | negInf, negInf => posInf

/-- The operator `<` on Numbers. -/
def lt : JSNum → JSNum → Bool
  | fin a, fin b => a < b
  | nan, _ => false
  | _, nan => false
  | posInf, _ => false
  | _, negInf => false
  | negInf, _ => true
  | fin _, posInf => true

/-- The function `Math.round`: the nearest integer, ties toward `+∞`; exact on binary64
values. -/
def round : JSNum → JSNum
  | fin q => fin (⌊q + 1 / 2⌋ : ℤ)
  | x => x

end JSNum

/-! ## DOM elements and class lists -/

/-- jQuery `addClass` on a class list. -/
def addClass (cs : List String) (c : String) : List String :=
  if c ∈ cs then cs else cs ++ [c]

/-- jQuery `removeClass` on a class list. -/
def removeClass (cs : List String) (c : String) : List String :=
  cs.filter (fun d => d != c)

/-- jQuery `hasClass` on a class list. -/
def hasClass (cs : List String) (c : String) : Bool := cs.contains c

/-- ASCII lower-casing, as used when a selector compares the value of a
case-insensitive HTML attribute such as `type`. -/
def asciiLower (s : String) : String := String.mk (s.toList.map Char.toLower)

/-- What jQuery `.val()` returns for an element: a string for `<input>` and
`<textarea>` (and a `<select>` with a selected option), `null` for a `<select>`
without a selected option, an array of strings for `<select multiple>`. -/
inductive Val where
  | str (s : JSString) : Val
  | null : Val
  | array (items : List JSString) : Val
deriving DecidableEq, Repr

namespace Val

/-- Whether the value is a string, i.e. has a `trim` method. -/
def isStr : Val → Bool
  | str _ => true
  | _ => false

/-- JavaScript truthiness (`ToBoolean`). -/
def truthy : Val → Bool
  | str s => strTruthy s
  | null => false
  | array _ => true

/-- Conversion `ToString`, applied by `RegExp.prototype.test` to its argument. -/
def toStr : Val → JSString
  | str s => s
  | null => utf16 "null"
  | array items => List.intercalate [44] items

/-- The operator `!==`: strings compare by content, distinct arrays are never
identical. -/
def strictNe : Val → Val → Bool
  | str a, str b => a != b
  | null, null => false
  | _, _ => true

end Val

/-- A form control (or any other element inside a form), with what the handlers
read from it. `tag` is the lower-case element name, `type` and `name` the attributes
of those names (empty when absent), `required` the presence of the `required`
attribute, `focusable` whether a call of `.focus()` gives it the focus (not so
when it is disabled or not rendered) and `value` what jQuery `.val()` returns. -/
structure Element where
  tag : String
  type : String
  name : String
  required : Bool
  focusable : Bool
  value : Val
  classes : List String
deriving DecidableEq, Repr

namespace Element

/-- Element-level `addClass`. -/
def addClass (e : Element) (c : String) : Element :=
  { e with classes := DailyScribbles.addClass e.classes c }

/-- Element-level `removeClass`. -/
def removeClass (e : Element) (c : String) : Element :=
  { e with classes := DailyScribbles.removeClass e.classes c }

/-- Element-level `hasClass`: the selector `.c`. -/
def hasClass (e : Element) (c : String) : Bool :=
  DailyScribbles.hasClass e.classes c

end Element

/-- Selector `[required]`. -/
def selRequired (e : Element) : Bool := e.required

/-- Selector `input[type="email"]`; in an HTML document the value of `type` is
matched ASCII case-insensitively. -/
def selEmail (e : Element) : Bool := e.tag == "input" && asciiLower e.type == "email"

/-- Selector `input[name="password1"]`. -/
def selPassword1 (e : Element) : Bool := e.tag == "input" && e.name == "password1"

/-- Selector `input[name="password2"]`. -/
def selPassword2 (e : Element) : Bool := e.tag == "input" && e.name == "password2"

/-- Selector `.is-invalid`. -/
def selInvalid (e : Element) : Bool := e.hasClass "is-invalid"

/-- jQuery `.val()` on a matched set: the value of its first element, `undefined`
(`none`) on the empty set. -/
def val (set : List Element) : Option Val := set.head?.map (fun e => e.value)

/-- The operator `!==` on the results of `.val()`. -/
def strictNe : Option Val → Option Val → Bool
  | some a, some b => Val.strictNe a b
  | none, none => false
  | _, _ => true

/-- State of the handler after a loop: the elements, the closure variable
`isValid`, and whether a `TypeError` was thrown (which ends the handler). -/
structure Loop where
  form : List Element
  isValid : Bool
  threw : Bool
deriving DecidableEq, Repr

/-- The loop `$form.find(sel).each(body)`: runs `body` on every element of the form
matching `sel`, in document order; `body` may mutate the element and assign the
closure variable `isValid`, which is threaded through. A `body` returning `none`
throws: the loop stops and the remaining elements are left as they are. -/
def each (sel : Element → Bool) (body : Element → Bool → Option (Element × Bool)) :
    List Element → Bool → Loop
  | [], isValid => { form := [], isValid := isValid, threw := false }
  | e :: es, isValid =>
    if sel e then
      match body e isValid with
      | none => { form := e :: es, isValid := isValid, threw := true }
      | some r =>
        let rest := each sel body es r.2
        { form := r.1 :: rest.form, isValid := rest.isValid, threw := rest.threw }
    else
      let rest := each sel body es isValid
      { form := e :: rest.form, isValid := rest.isValid, threw := rest.threw }

/-- Body of the required-fields loop (main.js lines 83-89). `$field.val().trim()`
throws a `TypeError` when `.val()` is not a string. -/
def requiredBody (field : Element) (isValid : Bool) : Option (Element × Bool) :=
  match field.value with
  | Val.str s =>
    if !strTruthy (jsTrim s) then
      some (field.addClass "is-invalid", false)
    else
      some ((field.removeClass "is-invalid").addClass "is-valid", isValid)
  | _ => none

/-- Body of the email loop (main.js lines 94-101). -/
def emailBody (field : Element) (isValid : Bool) : Option (Element × Bool) :=
  let email := field.value
  if email.truthy && !Regex.test emailRegex email.toStr then
    some (field.addClass "is-invalid", false)
  else
    some (field, isValid)

/-- Index, in document order, of the first element matching `sel`:
`$form.find(sel).first()`. -/
def firstIndex (sel : Element → Bool) : List Element → Option Nat
  | [] => none
  | e :: es => if sel e then some 0 else (firstIndex sel es).map (fun i => i + 1)

/-- Whether the element at an index is focusable. -/
def focusableAt (form : List Element) (i : Nat) : Bool :=
  match form[i]? with
  | some e => e.focusable
  | none => false

/-- What the generic submit handler leaves behind: the form's elements with their
markings, whether `e.preventDefault()` was called, the index of the element on
which `.focus()` was called (if any), the index of the element that received the
focus from that call (if any), and whether the handler ended by throwing. -/
structure SubmitOutcome where
  form : List Element
  defaultPrevented : Bool
  focusCall : Option Nat
  focus : Option Nat
  threw : Bool
deriving DecidableEq, Repr

/-- The handler `$('form').on('submit', …)` (main.js lines 77-119); `form` lists the
descendants of the submitted form in document order. -/
def onSubmit (form : List Element) : SubmitOutcome :=
  let isValid := true
  -- Check required fields
  let r1 := each selRequired requiredBody form isValid
  if r1.threw then
    { form := r1.form, defaultPrevented := false, focusCall := none, focus := none,
      threw := true }
  else
  -- Email validation
  let r2 := each selEmail emailBody r1.form r1.isValid
  -- Password confirmation
  let password := r2.form.filter selPassword1
  let confirmPassword := r2.form.filter selPassword2
  let r3 : Loop :=
    if password.length != 0 && confirmPassword.length != 0 then
      if strictNe (val password) (val confirmPassword) then
        { form := r2.form.map (fun e => if selPassword2 e then e.addClass "is-invalid" else e),
          isValid := false, threw := false }
      else r2
    else r2
  if !r3.isValid then
    let target := firstIndex selInvalid r3.form
    { form := r3.form, defaultPrevented := true, focusCall := target,
      focus := target.filter (focusableAt r3.form), threw := false }
  else
    { form := r3.form, defaultPrevented := false, focusCall := none, focus := none,
      threw := false }

/-- The password confirmation check fails: both inputs exist and the values of the
first `password1` input and the first `password2` input differ. -/
def passwordMismatch (form : List Element) : Bool :=
  match form.find? selPassword1, form.find? selPassword2 with
  | some p, some c => Val.strictNe p.value c.value
  | _, _ => false

/-- The element is required and its value is a string that is blank after
trimming. -/
def requiredBlank (e : Element) : Bool :=
  e.required &&
    (match e.value with
      | Val.str s => (jsTrim s).isEmpty
      | _ => false)

/-- The element is an email input with a non-empty value that the email pattern
rejects. -/
def emailMalformed (e : Element) : Bool :=
  selEmail e && e.value.truthy && !Regex.test emailRegex e.value.toStr

/-- The element fails a validation check of this submission: it is required and
blank, or an email input with a non-empty malformed value, or a confirmation
input of a failing password check. -/
def failsCheck (form : List Element) (e : Element) : Bool :=
  requiredBlank e || emailMalformed e || (passwordMismatch form && selPassword2 e)

/-- Effect of the required-fields loop on one element. -/
def markRequired (e : Element) : Element :=
  if selRequired e then
    match requiredBody e true with
    | some r => r.1
    | none => e
  else e

/-- Effect of the email loop on one element. -/
def markEmail (e : Element) : Element :=
  if selEmail e then
    match emailBody e true with
    | some r => r.1
    | none => e
  else e

/-- Effect of the password confirmation step on one element. -/
def markConfirm (mismatch : Bool) (e : Element) : Element :=
  if mismatch && selPassword2 e then e.addClass "is-invalid" else e

/-- Every required element yields a string from `.val()`, so the required-fields
loop runs to its end. -/
def RequiredAreStrings (form : List Element) : Prop :=
  ∀ e ∈ form, e.required = true → e.value.isStr = true

instance (form : List Element) : Decidable (RequiredAreStrings form) :=
  inferInstanceAs (Decidable (∀ e ∈ form, e.required = true → e.value.isStr = true))

/-- Every `<input>` yields a string from `.val()`, as it does in any document. -/
def InputsAreStrings (form : List Element) : Prop :=
  ∀ e ∈ form, e.tag = "input" → e.value.isStr = true

instance (form : List Element) : Decidable (InputsAreStrings form) :=
  inferInstanceAs (Decidable (∀ e ∈ form, e.tag = "input" → e.value.isStr = true))

/-- Builder for a focusable `<input>` without classes. -/
def input (type name : String) (required : Bool) (value : String) : Element :=
  { tag := "input", type := type, name := name, required := required,
    focusable := true, value := Val.str (utf16 value), classes := [] }

/-- A form in which an optional field still carries `is-invalid` (from the server
or an earlier submission) ahead of a blank required field. -/
def staleForm : List Element :=
  [ { tag := "input", type := "text", name := "nickname", required := false,
      focusable := true, value := Val.str (utf16 "hello"),
      classes := ["form-control", "is-invalid"] },
    input "text" "title" true "" ]

/-- A form whose only field is required, blank and not focusable (not rendered). -/
def hiddenForm : List Element :=
  [ { tag := "input", type := "text", name := "title", required := true,
      focusable := false, value := Val.str (utf16 ""), classes := [] } ]

/-- A form with a filled required field that still carries `is-invalid`, a blank
required field, and after it an optional field that still carries `is-invalid`. -/
def lateStaleForm : List Element :=
  [ { tag := "input", type := "text", name := "author", required := true,
      focusable := true, value := Val.str (utf16 "ann"), classes := ["is-invalid"] },
    input "text" "title" true "  ",
    { tag := "input", type := "text", name := "nickname", required := false,
      focusable := true, value := Val.str (utf16 "hello"), classes := ["is-invalid"] } ]

/-- A form whose only field is an optional email input holding `a@b.co`. -/
def optionalEmailForm : List Element := [ input "email" "email" false "a@b.co" ]

/-- The same form, the field still marked invalid by an earlier submission. -/
def staleEmailForm : List Element :=
  [ { tag := "input", type := "email", name := "email", required := false,
      focusable := true, value := Val.str (utf16 "a@b.co"), classes := ["is-invalid"] } ]

/-- A form with a required `<select>` in which no option is selected (`.val()` is
`null`), followed by a blank required text input. -/
def selectForm : List Element :=
  [ { tag := "select", type := "", name := "category", required := true,
      focusable := true, value := Val.null, classes := [] },
    input "text" "title" true "" ]

/-- A form whose email input spells its type in upper case and holds a malformed
address. -/
def upperCaseEmailForm : List Element := [ input "EMAIL" "email" false "not-an-email" ]

/-! ## Character counter -/

/-- Text content of the counter: empty as created, then the string that
`remaining + ' characters remaining'` evaluates to for the Number `remaining`. -/
inductive CounterText where
  | empty : CounterText
  | remaining (n : JSNum) : CounterText
deriving DecidableEq, Repr

/-- The `<small>` element inserted after a text area. -/
structure Counter where
  classes : List String
  text : CounterText
deriving DecidableEq, Repr

/-- The counter as created (main.js line 40). -/
def newCounter : Counter :=
  { classes := ["form-text", "text-muted", "char-counter"], text := CounterText.empty }

/-- The Number to which `maxLength - …` coerces the attribute string of a text area
whose maximum length is `M`: the binary64 value nearest to `M`. -/
def attrNumber (M : ℕ) : JSNum := toDouble M

/-- The closure `updateCounter` (main.js lines 43-52). `maxLength` is the Number the
captured attribute string is coerced to by the subtraction, `value` the text area's
content. -/
def updateCounter (maxLength : JSNum) (value : JSString) (counter : Counter) : Counter :=
  let remaining := JSNum.sub maxLength (JSNum.fin value.length)
  let counter := { counter with text := CounterText.remaining remaining }
  if JSNum.lt remaining (JSNum.fin 20) then
    { counter with classes := removeClass (addClass counter.classes "text-warning") "text-muted" }
  else
    { counter with classes := removeClass (addClass counter.classes "text-muted") "text-warning" }

/-! ## Back-to-top button -/

/-- The scroll handler of the back-to-top button (main.js lines 136-142): `true`
when it calls `fadeIn` (the button ends shown), `false` when it calls `fadeOut`. -/
def backToTopShown (scrollTop : ℚ) : Bool :=
  if scrollTop > 300 then true else false

/-! ## Clipboard copy -/

/-- A `.copy-btn` element. -/
structure Button where
  text : String
  classes : List String
deriving DecidableEq, Repr

/-- jQuery `.text()` getter on a matched set: the combined text of all its
elements. -/
def getText (btns : List Button) : String := String.join (btns.map (fun b => b.text))

/-- jQuery `.text(t)` setter on a matched set. -/
def setText (t : String) (btns : List Button) : List Button :=
  btns.map (fun b => { b with text := t })

/-- The success callback of `writeText` (main.js lines 168-173): `$btn` is every
`.copy-btn` of the page. Returns the buttons and the captured `originalText`. -/
def onCopied (btns : List Button) : List Button × String :=
  let originalText := getText btns
  ((setText "Copied!" btns).map (fun b =>
      { b with classes := removeClass (addClass b.classes "btn-success") "btn-outline-secondary" }),
    originalText)

/-- The timer callback (main.js lines 174-176) with its captured `originalText`. -/
def revertCopied (originalText : String) (btns : List Button) : List Button :=
  (setText originalText btns).map (fun b =>
    { b with classes := addClass (removeClass b.classes "btn-success") "btn-outline-secondary" })

/-- A page with two copy buttons. -/
def twoButtons : List Button :=
  [ { text := "Copy A", classes := ["copy-btn", "btn-outline-secondary"] },
    { text := "Copy B", classes := ["copy-btn", "btn-outline-secondary"] } ]

/-! ## Reading-progress bar -/

/-- The scroll handler of the reading-progress bar (main.js lines 154-162): the
number `scrollPercentRounded`; the bar's width is set to it followed by `%`. -/
def readingProgress (scrollTop docHeight winHeight : ℚ) : JSNum :=
  let scrollPercent :=
    JSNum.div (JSNum.fin scrollTop) (JSNum.sub (JSNum.fin docHeight) (JSNum.fin winHeight))
  let scrollPercentRounded := JSNum.round (JSNum.mul scrollPercent (JSNum.fin 100))
  scrollPercentRounded

/-! ## `apiCall` -/

/-- JavaScript values that can be passed as the payload of `apiCall`. -/
inductive JSValue where
  | undefined : JSValue
  | null : JSValue
  | bool (b : Bool) : JSValue
  | number (n : JSNum) : JSValue
  | str (s : JSString) : JSValue
  | array (items : List JSValue) : JSValue
  | object (props : List (String × JSValue)) : JSValue

/-- JavaScript truthiness (`ToBoolean`). -/
def JSValue.truthy : JSValue → Bool
  | JSValue.undefined => false
  | JSValue.null => false
  | JSValue.bool b => b
  | JSValue.number JSNum.nan => false
  | JSValue.number (JSNum.fin q) => q != 0
  | JSValue.number _ => true
  | JSValue.str s => strTruthy s
  | JSValue.array _ => true
  | JSValue.object _ => true

/-- Assignment `headers[key] = value` on an object literal kept as an association
list; `none` is the value `undefined`. -/
def setHeader (headers : List (String × Option Val)) (key : String)
    (value : Option Val) : List (String × Option Val) :=
  if headers.any (fun kv => kv.1 == key) then
    headers.map (fun kv => if kv.1 == key then (key, value) else kv)
  else headers ++ [(key, value)]

/-- Property lookup `headers[key]`; the outer `none` means the property is absent. -/
def getHeader (headers : List (String × Option Val)) (key : String) :
    Option (Option Val) :=
  (headers.find? (fun kv => kv.1 == key)).map (fun kv => kv.2)

/-- The `options` object handed to `$.ajax`; `data` is `none` when the property was
never assigned. -/
structure AjaxOptions where
  url : JSString
  method : JSString
  headers : List (String × Option Val)
  data : Option JSString
deriving DecidableEq, Repr

/-- The function `apiCall(url, method = 'GET', data = null)` (main.js lines 229-245),
up to the `options` it passes to `$.ajax`. `stringify` is the host's
`JSON.stringify`, `page` the document's elements (for the selector
`[name=csrfmiddlewaretoken]`); an omitted argument is `none`, respectively
`undefined`, and takes its default. -/
def apiCall (stringify : JSValue → JSString) (page : List Element)
    (url : JSString) (methodArg : Option JSString) (dataArg : JSValue) : AjaxOptions :=
  let method := match methodArg with
    | none => utf16 "GET"
    | some m => m
  let data := match dataArg with
    | JSValue.undefined => JSValue.null
    | d => d
  let options : AjaxOptions :=
    { url := url, method := method,
      headers := [("X-Requested-With", some (Val.str (utf16 "XMLHttpRequest")))],
      data := none }
  if method != utf16 "GET" && data.truthy then
    let options := { options with data := some (stringify data) }
    let options := { options with
      headers := setHeader options.headers "Content-Type"
        (some (Val.str (utf16 "application/json"))) }
    let options := { options with
      headers := setHeader options.headers "X-CSRFToken"
        (val (page.filter (fun e => e.name == "csrfmiddlewaretoken"))) }
    options
  else options

/-! # Properties -/

namespace Regex

theorem nullable_iff (r : Regex) : nullable r = true ↔ Matches r [] := by
  induction r with
  | empty => simp [nullable, Matches]
  | eps => simp [nullable, Matches]
  | lit c => simp [nullable, Matches]
  | notIn p => simp [nullable, Matches]
  | seq r t ihr iht =>
    simp only [nullable, Matches, Bool.and_eq_true, ihr, iht]
    constructor
    · rintro ⟨h1, h2⟩
      exact ⟨[], [], rfl, h1, h2⟩
    · rintro ⟨a, b, hab, h1, h2⟩
      have hh := List.append_eq_nil.mp hab.symm
      rw [hh.1] at h1
      rw [hh.2] at h2
      exact ⟨h1, h2⟩
  | alt r t ihr iht => simp [nullable, Matches, ihr, iht]
  | star r _ =>
    simp only [nullable, Matches, true_iff]
    exact ⟨[], rfl, by simp⟩

theorem deriv_iff (r : Regex) : ∀ (x : Nat) (s : JSString),
    Matches (deriv r x) s ↔ Matches r (x :: s) := by
  induction r with
  | empty => intro x s; simp [deriv, Matches]
  | eps => intro x s; simp [deriv, Matches]
  | lit c =>
    intro x s
    by_cases h : x = c
    · simp [deriv, Matches, h]
    · simp [deriv, Matches, h]
  | notIn p =>
    intro x s
    cases hp : p x
    · simp only [deriv, Matches, hp, List.cons.injEq]
      constructor
      · intro h
        exact ⟨x, ⟨rfl, h⟩, hp⟩
      · rintro ⟨c, ⟨_, h⟩, _⟩
        exact h
    · simp only [deriv, Matches, hp, List.cons.injEq, if_true, false_iff]
      rintro ⟨c, ⟨hxc, _⟩, hc⟩
      subst hxc
      rw [hp] at hc
      exact Bool.noConfusion hc
  | seq r t ihr iht =>
    intro x s
    have key : Matches (seq r t) (x :: s) ↔
        (Matches r [] ∧ Matches t (x :: s)) ∨
          ∃ a b, s = a ++ b ∧ Matches r (x :: a) ∧ Matches t b := by
      simp only [Matches]
      constructor
      · rintro ⟨a, b, hab, h1, h2⟩
        cases a with
        | nil =>
          left
          simp only [List.nil_append] at hab
          rw [hab]
          exact ⟨h1, h2⟩
        | cons y a =>
          right
          simp only [List.cons_append, List.cons.injEq] at hab
          obtain ⟨hxy, hs⟩ := hab
          subst hxy
          exact ⟨a, b, hs, h1, h2⟩
      · rintro (⟨h1, h2⟩ | ⟨a, b, hs, h1, h2⟩)
        · exact ⟨[], x :: s, rfl, h1, h2⟩
        · exact ⟨x :: a, b, by simp [hs], h1, h2⟩
    rw [key]
    by_cases hn : nullable r = true
    · have hr : Matches r [] := (nullable_iff r).mp hn
      simp only [deriv, hn, if_true, Matches, ihr, iht]
      constructor
      · rintro (h | h)
        · exact Or.inr h
        · exact Or.inl ⟨hr, h⟩
      · rintro (h | h)
        · exact Or.inr h.2
        · exact Or.inl h
    · have hr : ¬ Matches r [] := fun h => hn ((nullable_iff r).mpr h)
      simp only [deriv, hn, Matches, ihr]
      constructor
      · intro h
        exact Or.inr h
      · rintro (h | h)
        · exact absurd h.1 hr
        · exact h
  | alt r t ihr iht => intro x s; simp [deriv, Matches, ihr, iht]
  | star r ihr =>
    intro x s
    simp only [deriv, Matches, ihr]
    constructor
    · rintro ⟨a, b, hs, h1, L, hb, hL⟩
      refine ⟨(x :: a) :: L, by simp [hs, hb], ?_⟩
      intro c hc
      rcases List.mem_cons.mp hc with h | h
      · subst h
        exact ⟨by simp, h1⟩
      · exact hL c h
    · rintro ⟨L, hs, hL⟩
      cases L with
      | nil => simp at hs
      | cons c L =>
        have hc := hL c (List.mem_cons_self c L)
        cases c with
        | nil => exact absurd rfl hc.1
        | cons y c =>
          simp only [List.flatten_cons, List.cons_append, List.cons.injEq] at hs
          obtain ⟨hxy, hs⟩ := hs
          subst hxy
          exact ⟨c, L.flatten, hs, hc.2, L, rfl,
            fun a ha => hL a (List.mem_cons_of_mem _ ha)⟩

theorem test_iff (s : JSString) : ∀ r : Regex, test r s = true ↔ Matches r s := by
  induction s with
  | nil => intro r; simpa [test] using nullable_iff r
  | cons c cs ih => intro r; simp only [test]; rw [ih, deriv_iff]

end Regex

theorem star_notIn_iff (p : Nat → Bool) (b : JSString) :
    Regex.Matches (Regex.star (Regex.notIn p)) b ↔ ∀ x ∈ b, p x = false := by
  simp only [Regex.Matches]
  constructor
  · rintro ⟨L, hb, hL⟩ x hx
    rw [hb] at hx
    obtain ⟨l, hl, hxl⟩ := List.mem_flatten.mp hx
    obtain ⟨_, c, hc, hpc⟩ := hL l hl
    rw [hc] at hxl
    rw [List.mem_singleton.mp hxl]
    exact hpc
  · intro h
    refine ⟨b.map (fun x => [x]), ?_, ?_⟩
    · clear h
      induction b with
      | nil => rfl
      | cons x b ih => simp [← ih]
    · intro a ha
      obtain ⟨x, hx, hxa⟩ := List.mem_map.mp ha
      subst hxa
      exact ⟨by simp, x, rfl, h x hx⟩

theorem plus_notIn_iff (p : Nat → Bool) (a : JSString) :
    Regex.Matches (Regex.plus (Regex.notIn p)) a ↔ a ≠ [] ∧ ∀ x ∈ a, p x = false := by
  unfold Regex.plus
  simp only [Regex.Matches.eq_5, star_notIn_iff]
  constructor
  · rintro ⟨u, v, huv, ⟨c, hc, hpc⟩, hv⟩
    subst huv hc
    refine ⟨by simp, ?_⟩
    intro x hx
    rcases List.mem_append.mp hx with h | h
    · rw [List.mem_singleton.mp h]
      exact hpc
    · exact hv x h
  · rintro ⟨hne, h⟩
    cases a with
    | nil => exact absurd rfl hne
    | cons c a =>
      exact ⟨[c], a, rfl, ⟨c, rfl, h c (List.mem_cons_self c a)⟩,
        fun x hx => h x (List.mem_cons_of_mem c hx)⟩

theorem plus_notSpaceAt_iff (a : JSString) :
    Regex.Matches (Regex.plus notSpaceAt) a ↔ LocalPart a := by
  unfold notSpaceAt LocalPart
  rw [plus_notIn_iff]
  simp

theorem emailRegex_matches_iff (s : JSString) :
    Regex.Matches emailRegex s ↔
      ∃ a b c, s = a ++ 64 :: (b ++ 46 :: c) ∧ LocalPart a ∧ LocalPart b ∧ LocalPart c := by
  unfold emailRegex
  simp only [Regex.Matches.eq_5, Regex.Matches.eq_3, plus_notSpaceAt_iff]
  constructor
  · rintro ⟨a, r1, hs, ha, u, r2, h1, hu, b, r3, h2, hb, v, c, h3, hv, hc⟩
    subst hs h1 hu h2 h3 hv
    exact ⟨a, b, c, by simp, ha, hb, hc⟩
  · rintro ⟨a, b, c, hs, ha, hb, hc⟩
    exact ⟨a, 64 :: (b ++ 46 :: c), hs, ha, [64], b ++ 46 :: c, rfl, rfl,
      b, 46 :: c, rfl, hb, [46], c, rfl, rfl, hc⟩

/-- C10. The email pattern accepts a string exactly when it contains no white space,
contains exactly one `@`, has at least one code unit before the `@`, and the part
after the `@` contains a `.` that is neither its first nor its last code unit. -/
theorem emailRegex_accepts_iff (s : JSString) :
    Regex.test emailRegex s = true ↔
      (∀ x ∈ s, isJsWhitespace x = false) ∧ s.count 64 = 1 ∧
        ∃ a t, s = a ++ 64 :: t ∧ a ≠ [] ∧ ∃ b c, t = b ++ 46 :: c ∧ b ≠ [] ∧ c ≠ [] := by
  rw [Regex.test_iff, emailRegex_matches_iff]
  constructor
  · rintro ⟨a, b, c, hs, ha, hb, hc⟩
    have h46 : isJsWhitespace 46 = false := by decide
    have h64 : isJsWhitespace 64 = false := by decide
    have ca : a.count 64 = 0 := List.count_eq_zero.mpr (fun h => (ha.2 64 h).2 rfl)
    have cb : b.count 64 = 0 := List.count_eq_zero.mpr (fun h => (hb.2 64 h).2 rfl)
    have cc : c.count 64 = 0 := List.count_eq_zero.mpr (fun h => (hc.2 64 h).2 rfl)
    refine ⟨?_, ?_, a, b ++ 46 :: c, hs, ha.1, b, c, rfl, hb.1, hc.1⟩
    · intro x hx
      rw [hs] at hx
      simp only [List.mem_append, List.mem_cons] at hx
      rcases hx with h | h | h | h | h
      · exact (ha.2 x h).1
      · rw [h]; exact h64
      · exact (hb.2 x h).1
      · rw [h]; exact h46
      · exact (hc.2 x h).1
    · rw [hs]
      simp [List.count_append, List.count_cons, ca, cb, cc]
  · rintro ⟨hws, hcount, a, t, hs, ha, b, c, ht, hb, hc⟩
    subst ht
    rw [hs] at hcount
    simp only [List.count_append, List.count_cons, beq_self_eq_true, if_true] at hcount
    have ca : a.count 64 = 0 := by omega
    have cb : b.count 64 = 0 := by omega
    have cc : c.count 64 = 0 := by omega
    have na := List.count_eq_zero.mp ca
    have nb := List.count_eq_zero.mp cb
    have nc := List.count_eq_zero.mp cc
    refine ⟨a, b, c, hs, ⟨ha, ?_⟩, ⟨hb, ?_⟩, ⟨hc, ?_⟩⟩
    · intro x hx
      exact ⟨hws x (by rw [hs]; simp [hx]), fun h => na (h ▸ hx)⟩
    · intro x hx
      exact ⟨hws x (by rw [hs]; simp [hx]), fun h => nb (h ▸ hx)⟩
    · intro x hx
      exact ⟨hws x (by rw [hs]; simp [hx]), fun h => nc (h ▸ hx)⟩

/-! ## The generic submit handler -/

theorem hasClass_addClass (cs : List String) (c d : String) :
    hasClass (addClass cs c) d = (d == c || hasClass cs d) := by
  unfold hasClass addClass
  by_cases h : c ∈ cs
  · by_cases hd : d = c
    · subst hd
      simp [h]
    · simp [h, hd]
  · by_cases hd : d = c
    · subst hd
      simp [h]
    · simp [h, hd]

theorem hasClass_removeClass (cs : List String) (c d : String) :
    hasClass (removeClass cs c) d = (d != c && hasClass cs d) := by
  unfold hasClass removeClass
  by_cases hd : d = c
  · subst hd
    simp
  · by_cases h : d ∈ cs
    · simp [h, hd]
    · simp [h, hd]

theorem head?_filter_eq_find? (p : Element → Bool) (l : List Element) :
    (l.filter p).head? = l.find? p := by
  induction l with
  | nil => rfl
  | cons e es ih =>
    by_cases h : p e = true
    · simp [List.filter, List.find?, h]
    · simp only [Bool.not_eq_true] at h
      simp [List.filter, List.find?, h, ih]

/-- A loop whose body never throws on the selected elements maps the form. -/
theorem each_eq (sel : Element → Bool) (body : Element → Bool → Option (Element × Bool))
    (g : Element → Element) (ok : Element → Bool) :
    ∀ (l : List Element) (v : Bool),
      (∀ e ∈ l, sel e = true → ∀ w, body e w = some (g e, w && ok e)) →
      each sel body l v =
        { form := l.map (fun e => if sel e then g e else e),
          isValid := v && l.all (fun e => !sel e || ok e),
          threw := false } := by
  intro l
  induction l with
  | nil => intro v _; simp [each]
  | cons e es ih =>
    intro v hb
    have hes : ∀ x ∈ es, sel x = true → ∀ w, body x w = some (g x, w && ok x) :=
      fun x hx => hb x (List.mem_cons_of_mem e hx)
    by_cases h : sel e = true
    · have he := hb e (List.mem_cons_self e es) h v
      simp [each, h, he, ih _ hes, Bool.and_assoc]
    · simp only [Bool.not_eq_true] at h
      simp [each, h, ih _ hes]

/-- A loop whose body throws on some selected element ends by throwing. -/
theorem each_threw (sel : Element → Bool) (body : Element → Bool → Option (Element × Bool)) :
    ∀ (l : List Element) (v : Bool),
      (∃ e ∈ l, sel e = true ∧ ∀ w, body e w = none) → (each sel body l v).threw = true := by
  intro l
  induction l with
  | nil => rintro v ⟨e, he, _⟩; simp at he
  | cons a es ih =>
    rintro v ⟨e, he, hs, hnone⟩
    by_cases h : sel a = true
    · cases hba : body a v with
      | none => simp [each, h, hba]
      | some r =>
        have hmem : e ∈ es := by
          rcases List.mem_cons.mp he with hea | hea
          · subst hea
            rw [hnone v] at hba
            exact Option.noConfusion hba
          · exact hea
        simp [each, h, hba, ih r.2 ⟨e, hmem, hs, hnone⟩]
    · have hmem : e ∈ es := by
        rcases List.mem_cons.mp he with hea | hea
        · subst hea
          exact absurd hs h
        · exact hea
      simp only [Bool.not_eq_true] at h
      simp [each, h, ih v ⟨e, hmem, hs, hnone⟩]

theorem requiredBody_of_str (e : Element) (hreq : selRequired e = true)
    (h : e.value.isStr = true) (v : Bool) :
    requiredBody e v = some (markRequired e, v && !requiredBlank e) := by
  unfold markRequired
  rw [if_pos hreq]
  unfold selRequired at hreq
  unfold requiredBlank requiredBody
  cases hv : e.value with
  | str s =>
    cases hb : strTruthy (jsTrim s) <;> simp [strTruthy] at hb ⊢ <;> simp [hb, hreq]
  | null => rw [hv] at h; exact Bool.noConfusion h
  | array items => rw [hv] at h; exact Bool.noConfusion h

theorem requiredBody_of_not_str (e : Element) (h : e.value.isStr = false) (v : Bool) :
    requiredBody e v = none := by
  unfold requiredBody
  cases hv : e.value with
  | str s => rw [hv] at h; exact Bool.noConfusion h
  | null => rfl
  | array items => rfl

theorem emailBody_eq (e : Element) (hsel : selEmail e = true) (v : Bool) :
    emailBody e v = some (markEmail e, v && !emailMalformed e) := by
  unfold markEmail
  rw [if_pos hsel]
  unfold emailMalformed emailBody
  rw [hsel]
  cases h : (e.value.truthy && !Regex.test emailRegex e.value.toStr) <;> simp [h]

theorem markRequired_attrs (e : Element) :
    (markRequired e).tag = e.tag ∧ (markRequired e).type = e.type ∧
      (markRequired e).name = e.name ∧ (markRequired e).required = e.required ∧
        (markRequired e).focusable = e.focusable ∧ (markRequired e).value = e.value := by
  unfold markRequired requiredBody Element.addClass Element.removeClass
  by_cases h1 : selRequired e = true
  · cases hv : e.value with
    | str s => by_cases h2 : (!strTruthy (jsTrim s)) = true <;> simp [h1, h2, hv]
    | null => simp [h1, hv]
    | array items => simp [h1, hv]
  · simp [h1]

theorem markEmail_attrs (e : Element) :
    (markEmail e).tag = e.tag ∧ (markEmail e).type = e.type ∧
      (markEmail e).name = e.name ∧ (markEmail e).required = e.required ∧
        (markEmail e).focusable = e.focusable ∧ (markEmail e).value = e.value := by
  unfold markEmail emailBody Element.addClass
  by_cases h1 : selEmail e = true <;>
    by_cases h2 : (e.value.truthy && !Regex.test emailRegex e.value.toStr) = true <;>
      simp [h1, h2]

/-- The two marking loops leave every attribute but the class list alone. -/
theorem marked_attrs (e : Element) :
    (markEmail (markRequired e)).tag = e.tag ∧ (markEmail (markRequired e)).type = e.type ∧
      (markEmail (markRequired e)).name = e.name ∧
        (markEmail (markRequired e)).required = e.required ∧
          (markEmail (markRequired e)).focusable = e.focusable ∧
            (markEmail (markRequired e)).value = e.value := by
  obtain ⟨a1, a2, a3, a4, a5, a6⟩ := markRequired_attrs e
  obtain ⟨b1, b2, b3, b4, b5, b6⟩ := markEmail_attrs (markRequired e)
  exact ⟨b1.trans a1, b2.trans a2, b3.trans a3, b4.trans a4, b5.trans a5, b6.trans a6⟩

theorem markConfirm_attrs (m : Bool) (e : Element) :
    (markConfirm m e).focusable = e.focusable ∧ (markConfirm m e).value = e.value := by
  unfold markConfirm Element.addClass
  by_cases h : (m && selPassword2 e) = true <;> simp [h]

theorem selPassword1_marked (e : Element) :
    selPassword1 (markEmail (markRequired e)) = selPassword1 e := by
  obtain ⟨h1, _, h3, _, _, _⟩ := marked_attrs e
  simp [selPassword1, h1, h3]

theorem selPassword2_marked (e : Element) :
    selPassword2 (markEmail (markRequired e)) = selPassword2 e := by
  obtain ⟨h1, _, h3, _, _, _⟩ := marked_attrs e
  simp [selPassword2, h1, h3]

theorem selEmail_markRequired (e : Element) : selEmail (markRequired e) = selEmail e := by
  obtain ⟨h1, h2, _, _, _, _⟩ := markRequired_attrs e
  simp [selEmail, h1, h2]

theorem emailMalformed_markRequired (e : Element) :
    emailMalformed (markRequired e) = emailMalformed e := by
  unfold emailMalformed
  rw [selEmail_markRequired, (markRequired_attrs e).2.2.2.2.2]

theorem val_filter_marked (sel : Element → Bool)
    (hsel : ∀ e, sel (markEmail (markRequired e)) = sel e) (form : List Element) :
    val ((form.map (fun e => markEmail (markRequired e))).filter sel) = val (form.filter sel) ∧
      ((form.map (fun e => markEmail (markRequired e))).filter sel).length =
        (form.filter sel).length := by
  induction form with
  | nil => simp
  | cons e es ih =>
    by_cases h : sel e = true
    · simp [List.filter, hsel, h, val, (marked_attrs e).2.2.2.2.2, ih.2]
    · simp only [Bool.not_eq_true] at h
      simpa [List.filter, hsel, h] using ih

theorem password_step_eq (form : List Element) :
    ((form.filter selPassword1).length != 0 && (form.filter selPassword2).length != 0 &&
      strictNe (val (form.filter selPassword1)) (val (form.filter selPassword2))) =
        passwordMismatch form := by
  unfold passwordMismatch
  rw [← head?_filter_eq_find?, ← head?_filter_eq_find?]
  unfold val
  cases form.filter selPassword1 with
  | nil => simp
  | cons p ps =>
    cases form.filter selPassword2 with
    | nil => simp
    | cons c cs => simp [strictNe]

theorem each_required (form : List Element) (hreq : RequiredAreStrings form) :
    each selRequired requiredBody form true =
      { form := form.map markRequired,
        isValid := form.all (fun e => !requiredBlank e),
        threw := false } := by
  rw [each_eq selRequired requiredBody markRequired (fun e => !requiredBlank e) form true
    (fun e he hs w => requiredBody_of_str e hs (hreq e he hs) w)]
  have hmap : form.map (fun e => if selRequired e = true then markRequired e else e) =
      form.map markRequired := by
    apply List.map_congr_left
    intro e _
    by_cases h : selRequired e = true
    · simp [h]
    · simp [h, markRequired]
  have hall : form.all (fun e => !selRequired e || !requiredBlank e) =
      form.all (fun e => !requiredBlank e) := by
    congr 1
    funext e
    unfold requiredBlank selRequired
    cases e.required <;> simp
  rw [hmap, hall, Bool.true_and]

theorem each_email (l : List Element) (v : Bool) :
    each selEmail emailBody l v =
      { form := l.map markEmail,
        isValid := v && l.all (fun e => !emailMalformed e),
        threw := false } := by
  rw [each_eq selEmail emailBody markEmail (fun e => !emailMalformed e) l v
    (fun e _ hs w => emailBody_eq e hs w)]
  have hmap : l.map (fun e => if selEmail e = true then markEmail e else e) =
      l.map markEmail := by
    apply List.map_congr_left
    intro e _
    by_cases h : selEmail e = true
    · simp [h]
    · simp [h, markEmail]
  have hall : l.all (fun e => !selEmail e || !emailMalformed e) =
      l.all (fun e => !emailMalformed e) := by
    congr 1
    funext e
    unfold emailMalformed
    cases selEmail e <;> simp
  rw [hmap, hall]

/-- The form after the handler's checks, when it runs to completion. -/
theorem onSubmit_eq (form : List Element) (hreq : RequiredAreStrings form) :
    onSubmit form =
      if (form.all (fun e => !requiredBlank e) && form.all (fun e => !emailMalformed e) &&
          !passwordMismatch form) then
        { form := form.map
            (fun e => markConfirm (passwordMismatch form) (markEmail (markRequired e))),
          defaultPrevented := false, focusCall := none, focus := none, threw := false }
      else
        { form := form.map
            (fun e => markConfirm (passwordMismatch form) (markEmail (markRequired e))),
          defaultPrevented := true,
          focusCall := firstIndex selInvalid (form.map
            (fun e => markConfirm (passwordMismatch form) (markEmail (markRequired e)))),
          focus := (firstIndex selInvalid (form.map
            (fun e => markConfirm (passwordMismatch form) (markEmail (markRequired e))))).filter
              (focusableAt (form.map
                (fun e => markConfirm (passwordMismatch form) (markEmail (markRequired e))))),
          threw := false } := by
  have hr2 : each selEmail emailBody (form.map markRequired)
        (form.all (fun e => !requiredBlank e)) =
      { form := form.map (fun e => markEmail (markRequired e)),
        isValid := form.all (fun e => !requiredBlank e) &&
          form.all (fun e => !emailMalformed e),
        threw := false } := by
    rw [each_email]
    have h1 : (form.map markRequired).map markEmail =
        form.map (fun e => markEmail (markRequired e)) := by
      simp [List.map_map, Function.comp]
    have h2 : (form.map markRequired).all (fun e => !emailMalformed e) =
        form.all (fun e => !emailMalformed e) := by
      rw [List.all_map]
      congr 1
      funext e
      simp [Function.comp, emailMalformed_markRequired]
    rw [h1, h2]
  unfold onSubmit
  simp only [each_required form hreq, hr2]
  have hv1 := val_filter_marked selPassword1 selPassword1_marked form
  have hv2 := val_filter_marked selPassword2 selPassword2_marked form
  rw [hv1.1, hv1.2, hv2.1, hv2.2]
  have hp := password_step_eq form
  generalize form.all (fun e => !requiredBlank e) = a at *
  generalize form.all (fun e => !emailMalformed e) = b at *
  cases hm : passwordMismatch form
  · rw [hm] at hp
    have hmap : form.map (fun e => markConfirm false (markEmail (markRequired e))) =
        form.map (fun e => markEmail (markRequired e)) := by
      apply List.map_congr_left
      intro e _
      simp [markConfirm]
    rw [hmap]
    by_cases hAB : ((form.filter selPassword1).length != 0 &&
        (form.filter selPassword2).length != 0) = true
    · rw [hAB] at hp
      simp only [Bool.true_and] at hp
      simp only [hAB, hp, if_true]
      cases a <;> cases b <;> simp
    · simp only [hAB]
      cases a <;> cases b <;> simp
  · rw [hm] at hp
    have hAB : ((form.filter selPassword1).length != 0 &&
        (form.filter selPassword2).length != 0) = true := by
      revert hp
      cases ((form.filter selPassword1).length != 0 &&
        (form.filter selPassword2).length != 0) <;> simp
    rw [hAB] at hp
    simp only [Bool.true_and] at hp
    have hmap : (form.map (fun e => markEmail (markRequired e))).map
          (fun e => if selPassword2 e = true then e.addClass "is-invalid" else e) =
        form.map (fun e => markConfirm true (markEmail (markRequired e))) := by
      rw [List.map_map]
      apply List.map_congr_left
      intro e _
      simp [markConfirm, Function.comp]
    simp only [hAB, hp, if_true, hmap]
    simp

/-- A required element whose `.val()` is not a string makes the handler throw before
it can call `preventDefault`. -/
theorem onSubmit_threw (form : List Element) (h : ¬ RequiredAreStrings form) :
    (onSubmit form).threw = true ∧ (onSubmit form).defaultPrevented = false := by
  unfold RequiredAreStrings at h
  push_neg at h
  obtain ⟨e, he, hr, hs⟩ := h
  have hs' : e.value.isStr = false := by
    cases hv : e.value.isStr
    · rfl
    · exact absurd hv hs
  have ht := each_threw selRequired requiredBody form true
    ⟨e, he, hr, fun w => requiredBody_of_not_str e hs' w⟩
  unfold onSubmit
  simp [ht]

theorem required_of_blocked (form : List Element)
    (h : (onSubmit form).defaultPrevented = true) : RequiredAreStrings form := by
  by_contra hcon
  have := (onSubmit_threw form hcon).2
  rw [h] at this
  exact Bool.noConfusion this

theorem onSubmit_prevented (form : List Element) (hreq : RequiredAreStrings form) :
    (onSubmit form).defaultPrevented = true ↔
      (∃ e ∈ form, requiredBlank e = true) ∨ (∃ e ∈ form, emailMalformed e = true) ∨
        passwordMismatch form = true := by
  rw [onSubmit_eq form hreq]
  by_cases h1 : form.all (fun e => !requiredBlank e) = true
  · by_cases h2 : form.all (fun e => !emailMalformed e) = true
    · have n1 : ¬ ∃ e ∈ form, requiredBlank e = true := by
        rintro ⟨e, he, hb⟩
        have := List.all_eq_true.mp h1 e he
        simp [hb] at this
      have n2 : ¬ ∃ e ∈ form, emailMalformed e = true := by
        rintro ⟨e, he, hb⟩
        have := List.all_eq_true.mp h2 e he
        simp [hb] at this
      rw [h1, h2]
      cases hm : passwordMismatch form <;> simp [n1, n2]
    · have y2 : ∃ e ∈ form, emailMalformed e = true := by
        rw [List.all_eq_true] at h2
        push_neg at h2
        obtain ⟨e, he, hx⟩ := h2
        exact ⟨e, he, by simpa using hx⟩
      simp only [Bool.not_eq_true] at h2
      rw [h1, h2]
      simp [y2]
  · have y1 : ∃ e ∈ form, requiredBlank e = true := by
      rw [List.all_eq_true] at h1
      push_neg at h1
      obtain ⟨e, he, hx⟩ := h1
      exact ⟨e, he, by simpa using hx⟩
    simp only [Bool.not_eq_true] at h1
    rw [h1]
    simp [y1]

theorem blocked_iff_fails (form : List Element) (hreq : RequiredAreStrings form) :
    (onSubmit form).defaultPrevented = true ↔ ∃ e ∈ form, failsCheck form e = true := by
  rw [onSubmit_prevented form hreq]
  unfold failsCheck
  constructor
  · rintro (⟨e, he, hb⟩ | ⟨e, he, hb⟩ | hm)
    · exact ⟨e, he, by simp [hb]⟩
    · exact ⟨e, he, by simp [hb]⟩
    · have hm' := hm
      unfold passwordMismatch at hm'
      cases h2 : form.find? selPassword2 with
      | none =>
        rw [h2] at hm'
        cases h1 : form.find? selPassword1 <;> simp [h1] at hm'
      | some c =>
        exact ⟨c, List.mem_of_find?_eq_some h2, by simp [hm, List.find?_some h2]⟩
  · rintro ⟨e, he, hf⟩
    simp only [Bool.or_eq_true, Bool.and_eq_true] at hf
    rcases hf with (hb | hb) | ⟨hm, _⟩
    · exact Or.inl ⟨e, he, hb⟩
    · exact Or.inr (Or.inl ⟨e, he, hb⟩)
    · exact Or.inr (Or.inr hm)

theorem requiredBlank_iff (e : Element) :
    requiredBlank e = true ↔
      e.required = true ∧ ∃ s, e.value = Val.str s ∧ jsTrim s = [] := by
  unfold requiredBlank
  cases hv : e.value with
  | str s => cases hr : e.required <;> simp
  | null => simp
  | array items => simp

theorem emailMalformed_iff (e : Element) (hstr : e.tag = "input" → e.value.isStr = true) :
    emailMalformed e = true ↔
      (e.tag = "input" ∧ asciiLower e.type = "email") ∧
        ∃ s, e.value = Val.str s ∧ s ≠ [] ∧ Regex.test emailRegex s = false := by
  unfold emailMalformed selEmail
  by_cases ht : e.tag = "input"
  · have hs := hstr ht
    cases hv : e.value with
    | str s =>
      by_cases hty : asciiLower e.type = "email"
      · cases s with
        | nil => simp [ht, hty, Val.truthy, Val.toStr, strTruthy]
        | cons a b => simp [ht, hty, Val.truthy, Val.toStr, strTruthy]
      · simp [ht, hty]
    | null => rw [hv] at hs; exact Bool.noConfusion hs
    | array items => rw [hv] at hs; exact Bool.noConfusion hs
  · simp [ht]

theorem tag_of_selPassword1 (e : Element) (h : selPassword1 e = true) : e.tag = "input" := by
  unfold selPassword1 at h
  simp only [Bool.and_eq_true, beq_iff_eq] at h
  exact h.1

theorem tag_of_selPassword2 (e : Element) (h : selPassword2 e = true) : e.tag = "input" := by
  unfold selPassword2 at h
  simp only [Bool.and_eq_true, beq_iff_eq] at h
  exact h.1

theorem strictNe_of_str (a b : Val) (ha : a.isStr = true) (hb : b.isStr = true) :
    Val.strictNe a b = true ↔ a ≠ b := by
  cases a with
  | str s =>
    cases b with
    | str t => simp [Val.strictNe]
    | null => exact Bool.noConfusion hb
    | array items => exact Bool.noConfusion hb
  | null => exact Bool.noConfusion ha
  | array items => exact Bool.noConfusion ha

theorem passwordMismatch_iff (form : List Element) (hinput : InputsAreStrings form) :
    passwordMismatch form = true ↔
      ∃ p c, form.find? selPassword1 = some p ∧ form.find? selPassword2 = some c ∧
        p.value ≠ c.value := by
  unfold passwordMismatch
  cases h1 : form.find? selPassword1 with
  | none => simp
  | some p =>
    cases h2 : form.find? selPassword2 with
    | none => simp
    | some c =>
      have hp := hinput p (List.mem_of_find?_eq_some h1)
        (tag_of_selPassword1 p (List.find?_some h1))
      have hc := hinput c (List.mem_of_find?_eq_some h2)
        (tag_of_selPassword2 c (List.find?_some h2))
      simp [strictNe_of_str p.value c.value hp hc]

/-- C1 (as stated, refuted). A required `<select>` without a selected option makes
`.val().trim()` throw at line 84: the handler ends without `preventDefault`,
although a required text input of the form is blank. -/
theorem submit_throws_counterexample :
    (∃ e ∈ selectForm, e.required = true ∧ e.value = Val.str [] ∧ jsTrim [] = []) ∧
      (onSubmit selectForm).threw = true ∧
      (onSubmit selectForm).defaultPrevented = false := by
  decide

/-- C1 (amended). For a form in which `.val()` of every required field is a string
(as it is for every `<input>`), the generic submit handler calls `preventDefault`
exactly when some required field is blank after trimming, or some email input has a
non-empty value that the email pattern rejects, or the form has both a `password1`
and a `password2` input and the values `.val()` reads from them (those of the first
match) differ. In particular `password1 = "x"`, `password2 = "y"` is blocked and
`password1 = password2 = "x"` alone is not. -/
theorem submit_blocked_iff :
    (∀ form : List Element, RequiredAreStrings form → InputsAreStrings form →
      ((onSubmit form).defaultPrevented = true ↔
        (∃ e ∈ form, e.required = true ∧ ∃ s, e.value = Val.str s ∧ jsTrim s = []) ∨
        (∃ e ∈ form, (e.tag = "input" ∧ asciiLower e.type = "email") ∧
          ∃ s, e.value = Val.str s ∧ s ≠ [] ∧ Regex.test emailRegex s = false) ∨
        (∃ p c, form.find? selPassword1 = some p ∧ form.find? selPassword2 = some c ∧
          p.value ≠ c.value))) ∧
    (onSubmit [input "password" "password1" false "x",
        input "password" "password2" false "y"]).defaultPrevented = true ∧
    (onSubmit [input "password" "password1" false "x",
        input "password" "password2" false "x"]).defaultPrevented = false := by
  refine ⟨?_, by decide, by decide⟩
  intro form hreq hinput
  rw [onSubmit_prevented form hreq, passwordMismatch_iff form hinput]
  constructor
  · rintro (⟨e, he, hb⟩ | ⟨e, he, hb⟩ | hm)
    · exact Or.inl ⟨e, he, (requiredBlank_iff e).mp hb⟩
    · exact Or.inr (Or.inl ⟨e, he, (emailMalformed_iff e (hinput e he)).mp hb⟩)
    · exact Or.inr (Or.inr hm)
  · rintro (⟨e, he, hb⟩ | ⟨e, he, hb⟩ | hm)
    · exact Or.inl ⟨e, he, (requiredBlank_iff e).mpr hb⟩
    · exact Or.inr (Or.inl ⟨e, he, (emailMalformed_iff e (hinput e he)).mpr hb⟩)
    · exact Or.inr (Or.inr hm)

/-- Instance of `submit_blocked_iff`: an email input typed `EMAIL` holding a malformed
address blocks the submission. -/
theorem submit_blocked_iff_witness :
    RequiredAreStrings upperCaseEmailForm ∧ InputsAreStrings upperCaseEmailForm ∧
      (onSubmit upperCaseEmailForm).defaultPrevented = true :=
  ⟨by decide, by decide,
    (submit_blocked_iff.1 upperCaseEmailForm (by decide) (by decide)).mpr
      (Or.inr (Or.inl ⟨input "EMAIL" "email" false "not-an-email", by decide,
        by decide, utf16 "not-an-email", by decide, by decide, by decide⟩))⟩

theorem firstIndex_map (p : Element → Bool) (f : Element → Element) (l : List Element) :
    firstIndex p (l.map f) = firstIndex (fun e => p (f e)) l := by
  induction l with
  | nil => rfl
  | cons e es ih => simp [firstIndex, ih]

theorem firstIndex_spec (p : Element → Bool) (l : List Element) :
    (∃ e ∈ l, p e = true) →
      ∃ i e, firstIndex p l = some i ∧ l[i]? = some e ∧ p e = true ∧
        ∀ j e', j < i → l[j]? = some e' → p e' = false := by
  induction l with
  | nil => rintro ⟨e, he, _⟩; simp at he
  | cons a l ih =>
    rintro ⟨e, he, hp⟩
    by_cases ha : p a = true
    · refine ⟨0, a, by simp [firstIndex, ha], by simp, ha, ?_⟩
      intro j e' hj
      omega
    · simp only [Bool.not_eq_true] at ha
      have hmem : ∃ e ∈ l, p e = true := by
        rcases List.mem_cons.mp he with h | h
        · subst h
          rw [ha] at hp
          exact Bool.noConfusion hp
        · exact ⟨e, h, hp⟩
      obtain ⟨i, x, hi, hx, hpx, hmin⟩ := ih hmem
      refine ⟨i + 1, x, by simp [firstIndex, ha, hi], by simpa using hx, hpx, ?_⟩
      intro j e' hj hje
      cases j with
      | zero =>
        simp only [List.getElem?_cons_zero, Option.some.injEq] at hje
        rw [← hje]
        exact ha
      | succ j =>
        simp only [List.getElem?_cons_succ] at hje
        exact hmin j e' (by omega) hje

/-- The first index satisfying `q` is also the first satisfying `p` when the two
predicates agree up to and including it. -/
theorem firstIndex_of_agree (p q : Element → Bool) :
    ∀ (l : List Element) (i : Nat), firstIndex q l = some i →
      (∀ j e, j ≤ i → l[j]? = some e → p e = q e) → firstIndex p l = some i := by
  intro l
  induction l with
  | nil => intro i h; simp [firstIndex] at h
  | cons a l ih =>
    intro i h hag
    have h0 : p a = q a := hag 0 a (Nat.zero_le i) (by simp)
    by_cases hq : q a = true
    · simp only [firstIndex, hq, if_true, Option.some.injEq] at h
      simp [firstIndex, h0, hq, h]
    · simp only [Bool.not_eq_true] at hq
      simp only [firstIndex, hq, Bool.false_eq_true, if_false, Option.map_eq_some'] at h
      obtain ⟨k, hk, hki⟩ := h
      have := ih k hk (fun j e hj hje => hag (j + 1) e (by omega) (by simpa using hje))
      simp [firstIndex, h0, hq, this, hki]

/-- Whether an element carries `is-invalid` when the handler's checks are done. -/
theorem selInvalid_marked (m : Bool) (e : Element)
    (hstr : e.required = true → e.value.isStr = true) :
    selInvalid (markConfirm m (markEmail (markRequired e))) =
      (requiredBlank e || emailMalformed e || (m && selPassword2 e) ||
        (!e.required && selInvalid e)) := by
  have hv1 : ("is-invalid" == "is-valid") = false := by decide
  have h1 : selInvalid (markRequired e) =
      (requiredBlank e || (!e.required && selInvalid e)) := by
    unfold markRequired requiredBody requiredBlank selInvalid selRequired Element.hasClass
      Element.addClass Element.removeClass strTruthy
    cases hr : e.required
    · simp
    · have hs := hstr hr
      cases hv : e.value with
      | str s =>
        cases hb : (jsTrim s).isEmpty <;>
          simp [hasClass_addClass, hasClass_removeClass, hv1, hb]
      | null => rw [hv] at hs; exact Bool.noConfusion hs
      | array items => rw [hv] at hs; exact Bool.noConfusion hs
  have h2 : selInvalid (markEmail (markRequired e)) =
      (emailMalformed e || selInvalid (markRequired e)) := by
    rw [← emailMalformed_markRequired e]
    generalize markRequired e = e1
    unfold markEmail emailBody emailMalformed selInvalid Element.hasClass Element.addClass
    cases hse : selEmail e1 <;>
      cases hc : (e1.value.truthy && !Regex.test emailRegex e1.value.toStr) <;>
      simp [hasClass_addClass, hc]
  have h3 : selInvalid (markConfirm m (markEmail (markRequired e))) =
      ((m && selPassword2 e) || selInvalid (markEmail (markRequired e))) := by
    have hs := selPassword2_marked e
    generalize markEmail (markRequired e) = e2 at hs ⊢
    rw [← hs]
    unfold markConfirm selInvalid Element.hasClass Element.addClass
    cases m <;> cases selPassword2 e2 <;> simp [hasClass_addClass]
  rw [h3, h2, h1]
  cases requiredBlank e <;> cases emailMalformed e <;> cases m <;>
    cases selPassword2 e <;> cases e.required <;> cases selInvalid e <;> rfl

theorem focusableAt_map (f : Element → Element) (hf : ∀ e, (f e).focusable = e.focusable)
    (l : List Element) (i : Nat) : focusableAt (l.map f) i = focusableAt l i := by
  unfold focusableAt
  rw [List.getElem?_map]
  cases l[i]? with
  | none => rfl
  | some e => simp [hf]

/-- C2 (as stated, refuted). An optional field that passes every check but still
carries `is-invalid` takes the focus ahead of the first field that failed; and when
the first field that failed is not focusable, the call of `.focus()` moves the focus
nowhere. -/
theorem focus_stale_counterexample :
    ((onSubmit staleForm).defaultPrevented = true ∧
      (onSubmit staleForm).focus = some 0 ∧
      staleForm.map (failsCheck staleForm) = [false, true]) ∧
    ((onSubmit hiddenForm).defaultPrevented = true ∧
      (onSubmit hiddenForm).focusCall = some 0 ∧
      (onSubmit hiddenForm).focus = none) := by
  decide

/-- C2 (amended). When the handler blocks a submission, some field fails a check
(required but blank, malformed email, mismatching password confirmation); if no
optional element ahead of the first such field in document order carried
`is-invalid` beforehand, `.focus()` is called on that first failing field, and the
focus moves to it when it is focusable. -/
theorem focus_first_failing (form : List Element)
    (hblocked : (onSubmit form).defaultPrevented = true) :
    ∃ i e, form[i]? = some e ∧ failsCheck form e = true ∧
      (∀ j e', j < i → form[j]? = some e' → failsCheck form e' = false) ∧
      ((∀ j e', j < i → form[j]? = some e' → e'.hasClass "is-invalid" = true →
          e'.required = true) →
        (onSubmit form).focusCall = some i ∧
          (e.focusable = true → (onSubmit form).focus = some i)) := by
  have hreq := required_of_blocked form hblocked
  have hex := (blocked_iff_fails form hreq).mp hblocked
  obtain ⟨i, e, hi, he, hp, hmin⟩ := firstIndex_spec (failsCheck form) form hex
  refine ⟨i, e, he, hp, hmin, ?_⟩
  intro hprior
  have hattr : ∀ x : Element,
      (markConfirm (passwordMismatch form) (markEmail (markRequired x))).focusable =
        x.focusable := fun x =>
    ((markConfirm_attrs _ _).1).trans (marked_attrs x).2.2.2.2.1
  have hcall : firstIndex selInvalid (form.map
      (fun x => markConfirm (passwordMismatch form) (markEmail (markRequired x)))) =
        some i := by
    rw [firstIndex_map]
    apply firstIndex_of_agree _ (failsCheck form) form i hi
    intro j x hj hx
    have hxmem : x ∈ form := List.getElem?_mem hx
    rw [selInvalid_marked _ x (hreq x hxmem)]
    unfold failsCheck
    rcases Nat.lt_or_eq_of_le hj with hlt | heq
    · have hstale := hprior j x hlt hx
      unfold selInvalid
      cases hr : x.required
      · cases hc : x.hasClass "is-invalid"
        · simp
        · rw [hr] at hstale
          exact absurd (hstale hc) (by simp)
      · simp
    · subst heq
      rw [he] at hx
      have hxe : e = x := Option.some.inj hx
      subst hxe
      have hp' := hp
      unfold failsCheck at hp'
      rw [hp']
      simp
  have hb := hblocked
  rw [onSubmit_eq form hreq] at hb ⊢
  split at hb
  · simp at hb
  · rename_i hc
    rw [if_neg hc]
    simp only [hcall]
    refine ⟨trivial, ?_⟩
    intro hfoc
    have : focusableAt (form.map
        (fun x => markConfirm (passwordMismatch form) (markEmail (markRequired x)))) i =
          true := by
      rw [focusableAt_map _ hattr]
      unfold focusableAt
      rw [he]
      exact hfoc
    simp [Option.filter, this]

/-- Instance of `focus_first_failing`: a filled required field that still carries
`is-invalid` comes first, the blank required field second, and an optional field
carrying `is-invalid` follows it. -/
theorem focus_first_failing_witness :
    (onSubmit lateStaleForm).defaultPrevented = true ∧
      lateStaleForm.map (fun e => e.hasClass "is-invalid") = [true, false, true] ∧
      lateStaleForm.map (fun e => e.required) = [true, true, false] ∧
      lateStaleForm.map (failsCheck lateStaleForm) = [false, true, false] ∧
      (onSubmit lateStaleForm).focusCall = some 1 ∧
      (onSubmit lateStaleForm).focus = some 1 ∧
      ∃ i e, lateStaleForm[i]? = some e ∧ failsCheck lateStaleForm e = true ∧
        (∀ j e', j < i → lateStaleForm[j]? = some e' →
          failsCheck lateStaleForm e' = false) ∧
        ((∀ j e', j < i → lateStaleForm[j]? = some e' → e'.hasClass "is-invalid" = true →
            e'.required = true) →
          (onSubmit lateStaleForm).focusCall = some i ∧
            (e.focusable = true → (onSubmit lateStaleForm).focus = some i)) :=
  ⟨by decide, by decide, by decide, by decide, by decide, by decide,
    focus_first_failing lateStaleForm (by decide)⟩

/-- C3 (code at the failing input). An optional email input whose value `a@b.co`
matches the pattern leaves the handler exactly as it entered it: without
`is-valid` when it was unmarked, and still carrying `is-invalid` when an earlier
submission had marked it. -/
theorem optional_email_not_marked_valid :
    Regex.test emailRegex (utf16 "a@b.co") = true ∧
      (onSubmit optionalEmailForm).form = optionalEmailForm ∧
      (onSubmit optionalEmailForm).form.map (fun e => e.hasClass "is-valid") = [false] ∧
      (onSubmit staleEmailForm).form.map (fun e => e.hasClass "is-invalid") = [true] := by
  decide

/-! ## Back-to-top button -/

/-- C9 (as stated, refuted). At a scroll offset of exactly 300 the button is faded
out. -/
theorem backToTop_boundary_counterexample :
    (300 : ℚ) ≥ 300 ∧ backToTopShown 300 = false := by
  decide

/-- C9 (amended). The button is shown exactly when the scroll offset exceeds 300;
at 300 and below it is hidden. -/
theorem backToTop_shown_iff (s : ℚ) : backToTopShown s = true ↔ 300 < s := by
  unfold backToTopShown
  by_cases h : s > 300
  · simp [h]
  · have h' : ¬ 300 < s := h
    simp [h']

/-! ## Clipboard copy -/

/-- C6 (code at the failing input). With two copy buttons every button shows
`Copied!` after a successful copy, and after the revert callback both show the
concatenation `Copy ACopy B` instead of their own original text. -/
theorem copy_revert_concatenates :
    (onCopied twoButtons).1.map (fun b => b.text) = ["Copied!", "Copied!"] ∧
      (revertCopied (onCopied twoButtons).2 (onCopied twoButtons).1).map (fun b => b.text) =
        ["Copy ACopy B", "Copy ACopy B"] ∧
      twoButtons.map (fun b => b.text) = ["Copy A", "Copy B"] := by
  decide

/-! ## `apiCall` -/

theorem apiCall_get_or_falsy (stringify : JSValue → JSString) (page : List Element)
    (url : JSString) (methodArg : Option JSString) (dataArg : JSValue)
    (h : ¬ (methodArg.getD (utf16 "GET") ≠ utf16 "GET" ∧ dataArg.truthy = true)) :
    apiCall stringify page url methodArg dataArg =
      { url := url, method := methodArg.getD (utf16 "GET"),
        headers := [("X-Requested-With", some (Val.str (utf16 "XMLHttpRequest")))],
        data := none } := by
  have hcond : (methodArg.getD (utf16 "GET") != utf16 "GET" &&
      (match dataArg with
        | JSValue.undefined => JSValue.null
        | d => d).truthy) = false := by
    by_cases hm : methodArg.getD (utf16 "GET") = utf16 "GET"
    · simp [hm]
    · have hd : dataArg.truthy = false := by
        cases hd : dataArg.truthy
        · rfl
        · exact absurd ⟨hm, hd⟩ h
      have : (match dataArg with
        | JSValue.undefined => JSValue.null
        | d => d).truthy = false := by
        cases dataArg <;> first | rfl | exact hd
      simp [this]
  cases methodArg with
  | none =>
    simp only [Option.getD_none] at hcond ⊢
    unfold apiCall
    simp only [hcond]
    rfl
  | some m =>
    simp only [Option.getD_some] at hcond ⊢
    unfold apiCall
    simp only [hcond]
    rfl

theorem default_of_truthy (dataArg : JSValue) :
    dataArg.truthy = true →
      (match dataArg with
        | JSValue.undefined => JSValue.null
        | d => d) = dataArg := by
  cases dataArg <;> intro hd <;> first | rfl | (simp [JSValue.truthy] at hd)

theorem apiCall_with_body (stringify : JSValue → JSString) (page : List Element)
    (url : JSString) (methodArg : Option JSString) (dataArg : JSValue)
    (hm : methodArg.getD (utf16 "GET") ≠ utf16 "GET") (hd : dataArg.truthy = true) :
    apiCall stringify page url methodArg dataArg =
      { url := url, method := methodArg.getD (utf16 "GET"),
        headers := [("X-Requested-With", some (Val.str (utf16 "XMLHttpRequest"))),
          ("Content-Type", some (Val.str (utf16 "application/json"))),
          ("X-CSRFToken", val (page.filter (fun e => e.name == "csrfmiddlewaretoken")))],
        data := some (stringify dataArg) } := by
  have hdata := default_of_truthy dataArg hd
  have hcond : (methodArg.getD (utf16 "GET") != utf16 "GET" && dataArg.truthy) = true := by
    simp [hm, hd]
  have k1 : ("X-Requested-With" == "Content-Type") = false := by decide
  have k2 : ("X-Requested-With" == "X-CSRFToken") = false := by decide
  have k3 : ("Content-Type" == "X-CSRFToken") = false := by decide
  cases methodArg with
  | none => exact absurd rfl hm
  | some m =>
    simp only [Option.getD_some] at hcond ⊢
    unfold apiCall
    simp only [hdata, hcond, if_true]
    simp [setHeader, k1, k2, k3]

/-- C5 (as stated, refuted). A `POST` with the supplied payload `0` gets no body and
no `Content-Type` or `X-CSRFToken` header. -/
theorem apiCall_falsy_payload_counterexample :
    utf16 "POST" ≠ utf16 "GET" ∧
      (apiCall (fun _ => utf16 "0") [] (utf16 "/api/likes") (some (utf16 "POST"))
        (JSValue.number (JSNum.fin 0))).data = none ∧
      getHeader (apiCall (fun _ => utf16 "0") [] (utf16 "/api/likes") (some (utf16 "POST"))
        (JSValue.number (JSNum.fin 0))).headers "Content-Type" = none := by
  refine ⟨by decide, ?_, ?_⟩
  · rw [apiCall_get_or_falsy _ _ _ _ _ (by simp [JSValue.truthy])]
  · rw [apiCall_get_or_falsy _ _ _ _ _ (by simp [JSValue.truthy])]
    decide

/-- C5 (amended). The options built by `apiCall` always carry
`X-Requested-With: XMLHttpRequest`. They carry a body equal to the JSON
serialization of the payload, `Content-Type: application/json` and an `X-CSRFToken`
header holding the value of the page's `csrfmiddlewaretoken` field exactly when the
method is not `GET` and the payload is truthy; otherwise they carry none of the
three. An omitted method is `GET`, an omitted payload is `null`. -/
theorem apiCall_options (stringify : JSValue → JSString) (page : List Element)
    (url : JSString) (methodArg : Option JSString) (dataArg : JSValue) :
    (apiCall stringify page url methodArg dataArg).method = methodArg.getD (utf16 "GET") ∧
    getHeader (apiCall stringify page url methodArg dataArg).headers "X-Requested-With" =
      some (some (Val.str (utf16 "XMLHttpRequest"))) ∧
    ((methodArg.getD (utf16 "GET") ≠ utf16 "GET" ∧ dataArg.truthy = true) →
      (apiCall stringify page url methodArg dataArg).data = some (stringify dataArg) ∧
      getHeader (apiCall stringify page url methodArg dataArg).headers "Content-Type" =
        some (some (Val.str (utf16 "application/json"))) ∧
      getHeader (apiCall stringify page url methodArg dataArg).headers "X-CSRFToken" =
        some (val (page.filter (fun e => e.name == "csrfmiddlewaretoken")))) ∧
    (¬ (methodArg.getD (utf16 "GET") ≠ utf16 "GET" ∧ dataArg.truthy = true) →
      (apiCall stringify page url methodArg dataArg).data = none ∧
      getHeader (apiCall stringify page url methodArg dataArg).headers "Content-Type" = none ∧
      getHeader (apiCall stringify page url methodArg dataArg).headers "X-CSRFToken" = none) ∧
    apiCall stringify page url methodArg JSValue.undefined =
      apiCall stringify page url methodArg JSValue.null := by
  have k1 : ("X-Requested-With" == "Content-Type") = false := by decide
  have k2 : ("X-Requested-With" == "X-CSRFToken") = false := by decide
  have k3 : ("Content-Type" == "X-CSRFToken") = false := by decide
  refine ⟨?_, ?_, ?_, ?_, ?_⟩
  · by_cases h : methodArg.getD (utf16 "GET") ≠ utf16 "GET" ∧ dataArg.truthy = true
    · rw [apiCall_with_body _ _ _ _ _ h.1 h.2]
    · rw [apiCall_get_or_falsy _ _ _ _ _ h]
  · by_cases h : methodArg.getD (utf16 "GET") ≠ utf16 "GET" ∧ dataArg.truthy = true
    · rw [apiCall_with_body _ _ _ _ _ h.1 h.2]
      simp [getHeader]
    · rw [apiCall_get_or_falsy _ _ _ _ _ h]
      simp [getHeader]
  · intro h
    rw [apiCall_with_body _ _ _ _ _ h.1 h.2]
    simp [getHeader, k1, k2, k3]
  · intro h
    rw [apiCall_get_or_falsy _ _ _ _ _ h]
    simp [getHeader, k1, k2]
  · rw [apiCall_get_or_falsy _ _ _ _ JSValue.undefined (by simp [JSValue.truthy]),
      apiCall_get_or_falsy _ _ _ _ JSValue.null (by simp [JSValue.truthy])]

/-- Instance of `apiCall_options`: a `POST` of an empty object from a page whose
CSRF field holds `tok`. -/
theorem apiCall_options_witness :
    ((some (utf16 "POST")).getD (utf16 "GET") ≠ utf16 "GET" ∧
        (JSValue.object []).truthy = true) ∧
      (apiCall (fun _ => utf16 "{}") [input "hidden" "csrfmiddlewaretoken" false "tok"]
        (utf16 "/api/posts") (some (utf16 "POST")) (JSValue.object [])).data =
          some (utf16 "{}") ∧
      getHeader (apiCall (fun _ => utf16 "{}")
          [input "hidden" "csrfmiddlewaretoken" false "tok"]
          (utf16 "/api/posts") (some (utf16 "POST")) (JSValue.object [])).headers
        "X-CSRFToken" = some (some (Val.str (utf16 "tok"))) :=
  ⟨by decide,
    ((apiCall_options (fun _ => utf16 "{}")
      [input "hidden" "csrfmiddlewaretoken" false "tok"]
      (utf16 "/api/posts") (some (utf16 "POST")) (JSValue.object [])).2.2.1 (by decide)).1,
    ((apiCall_options (fun _ => utf16 "{}")
      [input "hidden" "csrfmiddlewaretoken" false "tok"]
      (utf16 "/api/posts") (some (utf16 "POST")) (JSValue.object [])).2.2.1 (by decide)).2.2⟩

/-! ## Binary64 rounding -/

theorem roundHalfEven_intCast (n : ℤ) : roundHalfEven (n : ℚ) = n := by
  unfold roundHalfEven
  simp

theorem roundHalfEven_ge (q : ℚ) (n : ℤ) (h : (n : ℚ) ≤ q) : n ≤ roundHalfEven q := by
  have hf : n ≤ ⌊q⌋ := Int.le_floor.mpr h
  unfold roundHalfEven
  split_ifs <;> omega

theorem roundHalfEven_le (q : ℚ) (n : ℤ) (h : q ≤ (n : ℚ)) : roundHalfEven q ≤ n := by
  have hf : ⌊q⌋ ≤ n := by
    have : ((⌊q⌋ : ℤ) : ℚ) ≤ n := le_trans (Int.floor_le q) h
    exact_mod_cast this
  rcases lt_or_eq_of_le hf with hlt | heq
  · unfold roundHalfEven
    split_ifs <;> omega
  · have hq : q = (n : ℚ) := by
      apply le_antisymm h
      rw [← heq]
      exact Int.floor_le q
    rw [hq, roundHalfEven_intCast]

theorem ulp_pos (q : ℚ) : 0 < ulp q := by
  unfold ulp
  positivity

theorem roundMag_nonneg (q : ℚ) : 0 ≤ roundMag q := by
  unfold roundMag
  have h0 : (0 : ℚ) ≤ |q| / ulp q := div_nonneg (abs_nonneg q) (le_of_lt (ulp_pos q))
  have h1 : (0 : ℤ) ≤ roundHalfEven (|q| / ulp q) := roundHalfEven_ge _ 0 (by simpa using h0)
  have h2 : (0 : ℚ) ≤ (roundHalfEven (|q| / ulp q) : ℚ) := by exact_mod_cast h1
  exact mul_nonneg h2 (le_of_lt (ulp_pos q))

theorem lt_pow_binade (q : ℚ) (hq : 0 < q) : q < (2 : ℚ) ^ (binade q + 1) := by
  have h1 : q < ((2 : ℕ) : ℚ) ^ (Int.log 2 q + 1) := Int.lt_zpow_succ_log_self (by norm_num) q
  have h2 : Int.log 2 q + 1 ≤ binade q + 1 := by
    unfold binade
    rw [abs_of_pos hq]
    have := le_max_left (Int.log 2 q) (-1022)
    omega
  have h3 : ((2 : ℕ) : ℚ) ^ (Int.log 2 q + 1) ≤ (2 : ℚ) ^ (binade q + 1) := by
    have : (1 : ℚ) ≤ 2 := by norm_num
    simpa using zpow_le_zpow_right₀ this h2
  exact lt_of_lt_of_le h1 h3

theorem pow_binade_le (q : ℚ) (hq : 0 < q) (hn : -1022 ≤ Int.log 2 q) :
    (2 : ℚ) ^ binade q ≤ q := by
  have hb : binade q = Int.log 2 q := by
    unfold binade
    rw [abs_of_pos hq]
    exact max_eq_left hn
  rw [hb]
  have := Int.zpow_log_le_self (b := 2) (r := q) (by norm_num) hq
  simpa using this

theorem binade_mono (a b : ℚ) (ha : 0 < a) (hab : a ≤ b) : binade a ≤ binade b := by
  unfold binade
  rw [abs_of_pos ha, abs_of_pos (lt_of_lt_of_le ha hab)]
  exact max_le_max (Int.log_mono_right ha hab) (le_refl _)

theorem binade_ge (q : ℚ) : -1022 ≤ binade q := le_max_right _ _

theorem pow_split_hi (e : ℤ) : (2 : ℚ) ^ (e + 1) = ((2 ^ 53 : ℤ) : ℚ) * (2 : ℚ) ^ (e - 52) := by
  have h : e + 1 = 53 + (e - 52) := by ring
  rw [h, zpow_add₀ (by norm_num : (2 : ℚ) ≠ 0)]
  norm_num

theorem pow_split_lo (e : ℤ) : (2 : ℚ) ^ e = ((2 ^ 52 : ℤ) : ℚ) * (2 : ℚ) ^ (e - 52) := by
  have h : e = 52 + (e - 52) := by ring
  nth_rewrite 1 [h]
  rw [zpow_add₀ (by norm_num : (2 : ℚ) ≠ 0)]
  norm_num

theorem roundMag_le_pow (q : ℚ) (hq : 0 < q) : roundMag q ≤ (2 : ℚ) ^ (binade q + 1) := by
  have hu := ulp_pos q
  have h1 : |q| / ulp q ≤ ((2 ^ 53 : ℤ) : ℚ) := by
    rw [abs_of_pos hq, div_le_iff₀ hu]
    have := lt_pow_binade q hq
    rw [pow_split_hi] at this
    exact le_of_lt this
  have h2 : roundHalfEven (|q| / ulp q) ≤ 2 ^ 53 := roundHalfEven_le _ _ h1
  have h3 : (roundHalfEven (|q| / ulp q) : ℚ) ≤ ((2 ^ 53 : ℤ) : ℚ) := by exact_mod_cast h2
  rw [pow_split_hi]
  unfold roundMag
  exact mul_le_mul_of_nonneg_right h3 (le_of_lt hu)

theorem pow_le_roundMag (q : ℚ) (hq : 0 < q) (hn : -1022 ≤ Int.log 2 q) :
    (2 : ℚ) ^ binade q ≤ roundMag q := by
  have hu := ulp_pos q
  have h1 : ((2 ^ 52 : ℤ) : ℚ) ≤ |q| / ulp q := by
    rw [abs_of_pos hq, le_div_iff₀ hu]
    have := pow_binade_le q hq hn
    rw [pow_split_lo] at this
    exact this
  have h2 : 2 ^ 52 ≤ roundHalfEven (|q| / ulp q) := roundHalfEven_ge _ _ h1
  have h3 : ((2 ^ 52 : ℤ) : ℚ) ≤ (roundHalfEven (|q| / ulp q) : ℚ) := by exact_mod_cast h2
  rw [pow_split_lo]
  unfold roundMag
  exact mul_le_mul_of_nonneg_right h3 (le_of_lt hu)

theorem binade_eq_log (q : ℚ) (hq : 0 < q) (h : -1022 < binade q) :
    -1022 ≤ Int.log 2 q := by
  unfold binade at h
  rw [abs_of_pos hq] at h
  rcases le_total (Int.log 2 q) (-1022) with hl | hl
  · rw [max_eq_right hl] at h
    omega
  · exact hl

theorem ulp_eq_of_binade_eq (a b : ℚ) (h : binade a = binade b) : ulp a = ulp b := by
  unfold ulp
  rw [h]

/-- Rounding does not cross a representable upper bound. -/
theorem roundMag_le_of_le (q c : ℚ) (hq : 0 < q) (hqc : q ≤ c) (hc : roundMag c = c) :
    roundMag q ≤ c := by
  have hcpos : 0 < c := lt_of_lt_of_le hq hqc
  have hmono := binade_mono q c hq hqc
  rcases lt_or_eq_of_le hmono with hlt | heq
  · have h1 := roundMag_le_pow q hq
    have h2 : (2 : ℚ) ^ (binade q + 1) ≤ (2 : ℚ) ^ binade c :=
      zpow_le_zpow_right₀ (by norm_num) (by omega)
    have h3 : (2 : ℚ) ^ binade c ≤ c :=
      pow_binade_le c hcpos (binade_eq_log c hcpos (by have := binade_ge q; omega))
    exact le_trans h1 (le_trans h2 h3)
  · have hu := ulp_pos c
    have hue := ulp_eq_of_binade_eq q c heq
    have hk : c / ulp c = ((roundHalfEven (|c| / ulp c) : ℤ) : ℚ) :=
      (eq_div_of_mul_eq (ne_of_gt hu) hc).symm
    have h1 : |q| / ulp q ≤ ((roundHalfEven (|c| / ulp c) : ℤ) : ℚ) := by
      rw [← hk, hue, abs_of_pos hq]
      exact div_le_div_of_nonneg_right hqc (le_of_lt hu)
    have h2 := roundHalfEven_le _ _ h1
    have h3 : (roundHalfEven (|q| / ulp q) : ℚ) ≤ (roundHalfEven (|c| / ulp c) : ℚ) := by
      exact_mod_cast h2
    have h4 : roundMag q ≤ roundMag c := by
      unfold roundMag
      rw [hue] at h3 ⊢
      exact mul_le_mul_of_nonneg_right h3 (le_of_lt hu)
    rw [hc] at h4
    exact h4

/-- Rounding does not cross a representable lower bound. -/
theorem roundMag_ge_of_ge (q c : ℚ) (hc0 : 0 < c) (hcq : c ≤ q) (hc : roundMag c = c) :
    c ≤ roundMag q := by
  have hq : 0 < q := lt_of_lt_of_le hc0 hcq
  have hmono := binade_mono c q hc0 hcq
  rcases lt_or_eq_of_le hmono with hlt | heq
  · have h1 : c < (2 : ℚ) ^ (binade c + 1) := lt_pow_binade c hc0
    have h2 : (2 : ℚ) ^ (binade c + 1) ≤ (2 : ℚ) ^ binade q :=
      zpow_le_zpow_right₀ (by norm_num) (by omega)
    have h3 : (2 : ℚ) ^ binade q ≤ roundMag q :=
      pow_le_roundMag q hq (binade_eq_log q hq (by have := binade_ge c; omega))
    exact le_of_lt (lt_of_lt_of_le h1 (le_trans h2 h3))
  · have hu := ulp_pos q
    have hue := ulp_eq_of_binade_eq c q heq
    have hk : c / ulp c = ((roundHalfEven (|c| / ulp c) : ℤ) : ℚ) :=
      (eq_div_of_mul_eq (ne_of_gt (ulp_pos c)) hc).symm
    have h1 : ((roundHalfEven (|c| / ulp c) : ℤ) : ℚ) ≤ |q| / ulp q := by
      rw [← hk, hue, abs_of_pos hq]
      exact div_le_div_of_nonneg_right hcq (le_of_lt hu)
    have h2 := roundHalfEven_ge _ _ h1
    have h3 : (roundHalfEven (|c| / ulp c) : ℚ) ≤ (roundHalfEven (|q| / ulp q) : ℚ) := by
      exact_mod_cast h2
    have h4 : roundMag c ≤ roundMag q := by
      unfold roundMag
      rw [hue] at h3 ⊢
      exact mul_le_mul_of_nonneg_right h3 (le_of_lt hu)
    rw [hc] at h4
    exact h4

theorem roundMag_of_int_mul (q : ℚ) (k : ℤ) (h : |q| = (k : ℚ) * ulp q) :
    roundMag q = |q| := by
  have hu := ulp_pos q
  have hk : |q| / ulp q = (k : ℚ) := by
    rw [h, mul_div_assoc, div_self (ne_of_gt hu), mul_one]
  unfold roundMag
  rw [hk, roundHalfEven_intCast, ← h]

theorem zpow_nonneg_eq_intCast (j : ℤ) (hj : 0 ≤ j) :
    (2 : ℚ) ^ j = (((2 : ℤ) ^ j.toNat : ℤ) : ℚ) := by
  obtain ⟨n, rfl⟩ := Int.eq_ofNat_of_zero_le hj
  simp

theorem roundMag_natCast (n : ℕ) (hn : n < 2 ^ 53) : roundMag (n : ℚ) = (n : ℚ) := by
  rcases Nat.eq_zero_or_pos n with h0 | hpos
  · subst h0
    simp [roundMag, roundHalfEven]
  · have habs : |(n : ℚ)| = (n : ℚ) := abs_of_nonneg (by positivity)
    have hlog : Int.log 2 (n : ℚ) = (Nat.log 2 n : ℤ) := Int.log_natCast 2 n
    have he : Nat.log 2 n < 53 := Nat.log_lt_of_lt_pow (by omega) hn
    have hb : binade (n : ℚ) = (Nat.log 2 n : ℤ) := by
      unfold binade
      rw [habs, hlog]
      apply max_eq_left
      omega
    have hsplit : (1 : ℚ) = (2 : ℚ) ^ ((52 : ℤ) - (Nat.log 2 n : ℤ)) * ulp (n : ℚ) := by
      unfold ulp
      rw [hb, ← zpow_add₀ (by norm_num : (2 : ℚ) ≠ 0)]
      have : (52 : ℤ) - (Nat.log 2 n : ℤ) + ((Nat.log 2 n : ℤ) - 52) = 0 := by ring
      rw [this, zpow_zero]
    have hpow := zpow_nonneg_eq_intCast ((52 : ℤ) - (Nat.log 2 n : ℤ)) (by omega)
    have h := roundMag_of_int_mul (n : ℚ)
      ((n : ℤ) * (2 : ℤ) ^ ((52 : ℤ) - (Nat.log 2 n : ℤ)).toNat) (by
        rw [habs, Int.cast_mul, ← hpow, mul_assoc, ← hsplit, mul_one]
        simp)
    rw [h, habs]

theorem roundMag_minSubnormal :
    roundMag ((2 : ℚ) ^ (-1074 : ℤ)) = (2 : ℚ) ^ (-1074 : ℤ) := by
  have hpos : (0 : ℚ) < (2 : ℚ) ^ (-1074 : ℤ) := by positivity
  have habs : |(2 : ℚ) ^ (-1074 : ℤ)| = (2 : ℚ) ^ (-1074 : ℤ) := abs_of_pos hpos
  have hlog : Int.log 2 ((2 : ℚ) ^ (-1074 : ℤ)) = -1074 := by
    have := Int.log_zpow (R := ℚ) (b := 2) (by norm_num) (-1074)
    simpa using this
  have hb : binade ((2 : ℚ) ^ (-1074 : ℤ)) = -1022 := by
    unfold binade
    rw [habs, hlog]
    rfl
  have h := roundMag_of_int_mul ((2 : ℚ) ^ (-1074 : ℤ)) 1 (by
    rw [habs]
    unfold ulp
    rw [hb]
    norm_num)
  rw [h, habs]

/-- A positive difference of grid points rounds to a positive magnitude. -/
theorem roundMag_pos_of_ge (x : ℚ) (hx : (2 : ℚ) ^ (-1074 : ℤ) ≤ x) : 0 < roundMag x := by
  have hpos : (0 : ℚ) < (2 : ℚ) ^ (-1074 : ℤ) := by positivity
  exact lt_of_lt_of_le hpos (roundMag_ge_of_ge x _ hpos hx roundMag_minSubnormal)

theorem roundMag_on_grid (q : ℚ) : ∃ k : ℤ, roundMag q = (k : ℚ) * (2 : ℚ) ^ (-1074 : ℤ) := by
  have hb := binade_ge q
  have hpow := zpow_nonneg_eq_intCast (binade q - 52 + 1074) (by omega)
  refine ⟨roundHalfEven (|q| / ulp q) * (2 : ℤ) ^ (binade q - 52 + 1074).toNat, ?_⟩
  unfold roundMag ulp
  rw [Int.cast_mul, ← hpow, mul_assoc, ← zpow_add₀ (by norm_num : (2 : ℚ) ≠ 0)]
  have : binade q - 52 + 1074 + -1074 = binade q - 52 := by ring
  rw [this]

theorem toDouble_of_nonneg (q : ℚ) (hq : 0 ≤ q) :
    toDouble q =
      if (2 : ℚ) ^ (1024 : ℕ) ≤ roundMag q then JSNum.posInf else JSNum.fin (roundMag q) := by
  unfold toDouble
  by_cases h : (2 : ℚ) ^ (1024 : ℕ) ≤ roundMag q
  · have hpos : 0 < q := by
      rcases lt_or_eq_of_le hq with h1 | h1
      · exact h1
      · exfalso
        rw [← h1] at h
        have h0 : roundMag 0 = 0 := by simp [roundMag, roundHalfEven]
        rw [h0] at h
        have : (0 : ℚ) < (2 : ℚ) ^ (1024 : ℕ) := by positivity
        exact absurd h (not_le.mpr this)
    simp [h, hpos]
  · simp [h, hq]

theorem isDouble_grid (q : ℚ) (h : IsDouble q) : ∃ k : ℤ, q = (k : ℚ) * (2 : ℚ) ^ (-1074 : ℤ) := by
  obtain ⟨k, hk⟩ := roundMag_on_grid q
  unfold IsDouble toDouble at h
  by_cases h1 : (2 : ℚ) ^ (1024 : ℕ) ≤ roundMag q
  · rw [if_pos h1] at h
    split at h <;> exact JSNum.noConfusion h
  · rw [if_neg h1] at h
    by_cases h2 : 0 ≤ q
    · rw [if_pos h2] at h
      have := JSNum.fin.inj h
      exact ⟨k, by rw [← this, hk]⟩
    · rw [if_neg h2] at h
      have := JSNum.fin.inj h
      exact ⟨-k, by rw [← this, hk]; push_cast; ring⟩

theorem isDouble_nonneg_iff (q : ℚ) (hq : 0 ≤ q) :
    IsDouble q ↔ roundMag q = q ∧ roundMag q < (2 : ℚ) ^ (1024 : ℕ) := by
  unfold IsDouble
  rw [toDouble_of_nonneg q hq]
  by_cases h : (2 : ℚ) ^ (1024 : ℕ) ≤ roundMag q
  · rw [if_pos h]
    constructor
    · intro hh
      exact JSNum.noConfusion hh
    · rintro ⟨_, h2⟩
      exact absurd h (not_le.mpr h2)
  · rw [if_neg h]
    constructor
    · intro hh
      exact ⟨JSNum.fin.inj hh, not_le.mp h⟩
    · rintro ⟨h1, _⟩
      rw [h1]

theorem isDouble_natCast (n : ℕ) (hn : n < 2 ^ 53) : IsDouble (n : ℚ) := by
  rw [isDouble_nonneg_iff _ (by positivity)]
  refine ⟨roundMag_natCast n hn, ?_⟩
  rw [roundMag_natCast n hn]
  have h1 : (n : ℚ) < ((2 ^ 53 : ℕ) : ℚ) := by exact_mod_cast hn
  have h2 : ((2 ^ 53 : ℕ) : ℚ) ≤ (2 : ℚ) ^ (1024 : ℕ) := by norm_num
  exact lt_of_lt_of_le h1 h2

/-! ## Rounding error -/

theorem roundHalfEven_error (y : ℚ) : |(roundHalfEven y : ℚ) - y| ≤ 1 / 2 := by
  have h1 := Int.floor_le y
  have h2 := Int.lt_floor_add_one y
  unfold roundHalfEven
  rw [abs_le]
  split_ifs with ha hb hc
  · constructor <;> linarith
  · push_cast
    constructor <;> linarith
  · have hc' : y - (⌊y⌋ : ℚ) = 1 / 2 := le_antisymm (not_lt.mp hb) (not_lt.mp ha)
    constructor <;> linarith
  · have hc' : y - (⌊y⌋ : ℚ) = 1 / 2 := le_antisymm (not_lt.mp hb) (not_lt.mp ha)
    push_cast
    constructor <;> linarith

theorem roundMag_error (q : ℚ) : abs (roundMag q - |q|) ≤ ulp q / 2 := by
  have hu := ulp_pos q
  have h := roundHalfEven_error (|q| / ulp q)
  have heq : roundMag q - |q| =
      ((roundHalfEven (|q| / ulp q) : ℚ) - |q| / ulp q) * ulp q := by
    unfold roundMag
    field_simp
  rw [heq, abs_mul, abs_of_pos hu]
  calc |(roundHalfEven (|q| / ulp q) : ℚ) - |q| / ulp q| * ulp q
      ≤ 1 / 2 * ulp q := mul_le_mul_of_nonneg_right h (le_of_lt hu)
    _ = ulp q / 2 := by ring

theorem binade_abs (q : ℚ) : binade |q| = binade q := by
  unfold binade
  rw [abs_abs]

theorem pow_split_ulp (e : ℤ) :
    (2 : ℚ) ^ (e - 52) = (2 : ℚ) ^ e * (1 / 4503599627370496) := by
  have h : e - 52 = e + (-52) := by ring
  rw [h, zpow_add₀ (by norm_num : (2 : ℚ) ≠ 0)]
  norm_num

/-- In the normal range the spacing is at most `2^-52` times the magnitude. -/
theorem ulp_le_of_normal (q : ℚ) (hn : (2 : ℚ) ^ (-1022 : ℤ) ≤ |q|) :
    ulp q ≤ |q| * (1 / 4503599627370496) := by
  have hpos : 0 < |q| := lt_of_lt_of_le (by positivity) hn
  have hlog : -1022 ≤ Int.log 2 |q| := by
    have := (Int.zpow_le_iff_le_log (b := 2) (by norm_num) (x := -1022) hpos).mp
      (by simpa using hn)
    exact this
  have hb := pow_binade_le |q| hpos hlog
  rw [binade_abs] at hb
  unfold ulp
  rw [pow_split_ulp]
  exact mul_le_mul_of_nonneg_right hb (by norm_num)

/-- Relative error of rounding in the normal range: at most `2^-53`. -/
theorem toDouble_error (q : ℚ) (hn : (2 : ℚ) ^ (-1022 : ℤ) ≤ |q|)
    (hlt : |q| < (2 : ℚ) ^ (1023 : ℕ)) :
    ∃ r, toDouble q = JSNum.fin r ∧ |r - q| ≤ |q| * (1 / 9007199254740992) := by
  have he := roundMag_error q
  have hu := ulp_le_of_normal q hn
  have hbound : abs (roundMag q - |q|) ≤ |q| * (1 / 9007199254740992) := by
    calc abs (roundMag q - |q|) ≤ ulp q / 2 := he
      _ ≤ |q| * (1 / 4503599627370496) / 2 := by linarith
      _ = |q| * (1 / 9007199254740992) := by ring
  have hfin : ¬ (2 : ℚ) ^ (1024 : ℕ) ≤ roundMag q := by
    have h1 := (abs_le.mp hbound).2
    have h2 : (2 : ℚ) ^ (1024 : ℕ) = 2 * (2 : ℚ) ^ (1023 : ℕ) := by
      rw [pow_succ]
      ring
    have h3 : |q| * (1 / 9007199254740992) ≤ |q| := by
      have := abs_nonneg q
      nlinarith
    rw [h2]
    intro hcon
    have habs := abs_nonneg q
    linarith
  unfold toDouble
  rw [if_neg hfin]
  by_cases hq : 0 ≤ q
  · rw [if_pos hq]
    refine ⟨roundMag q, rfl, ?_⟩
    rw [abs_of_nonneg hq] at hbound ⊢
    exact hbound
  · rw [if_neg hq]
    refine ⟨-roundMag q, rfl, ?_⟩
    have hq' : q < 0 := not_le.mp hq
    rw [abs_of_neg hq'] at hbound ⊢
    have : -roundMag q - q = -(roundMag q - -q) := by ring
    rw [this, abs_neg]
    exact hbound

/-- Below the normal range the error of rounding is at most `2^-1075`, and nothing
overflows. -/
theorem toDouble_error_small (q : ℚ) (hs : |q| < (2 : ℚ) ^ (-1022 : ℤ)) :
    ∃ r, toDouble q = JSNum.fin r ∧ |r - q| ≤ (2 : ℚ) ^ (-1075 : ℤ) := by
  rcases eq_or_ne q 0 with h0 | h0
  · subst h0
    refine ⟨0, ?_, ?_⟩
    · simpa [IsDouble] using isDouble_natCast 0 (by norm_num)
    · simp
      positivity
  · have hpos : 0 < |q| := abs_pos.mpr h0
    have hlog : Int.log 2 |q| < -1022 := by
      have := (Int.lt_zpow_iff_log_lt (b := 2) (by norm_num) (x := -1022) hpos).mp
        (by simpa using hs)
      exact this
    have hb : binade q = -1022 := by
      unfold binade
      exact max_eq_right (le_of_lt hlog)
    have hu : ulp q = (2 : ℚ) ^ (-1074 : ℤ) := by
      unfold ulp
      rw [hb]
      norm_num
    have he := roundMag_error q
    rw [hu] at he
    have hhalf : (2 : ℚ) ^ (-1074 : ℤ) / 2 = (2 : ℚ) ^ (-1075 : ℤ) := by
      have h : (-1074 : ℤ) = -1075 + 1 := by norm_num
      rw [h, zpow_add₀ (by norm_num : (2 : ℚ) ≠ 0)]
      norm_num
    rw [hhalf] at he
    have hsmall : (2 : ℚ) ^ (-1075 : ℤ) ≤ 1 := by
      have := zpow_le_zpow_right₀ (by norm_num : (1 : ℚ) ≤ 2)
        (by norm_num : (-1075 : ℤ) ≤ 0)
      simpa using this
    have hs1 : (2 : ℚ) ^ (-1022 : ℤ) ≤ 1 := by
      have := zpow_le_zpow_right₀ (by norm_num : (1 : ℚ) ≤ 2)
        (by norm_num : (-1022 : ℤ) ≤ 0)
      simpa using this
    have hfin : ¬ (2 : ℚ) ^ (1024 : ℕ) ≤ roundMag q := by
      have h1 := (abs_le.mp he).2
      have h2 : (2 : ℚ) ≤ (2 : ℚ) ^ (1024 : ℕ) := by
        have := pow_le_pow_right₀ (by norm_num : (1 : ℚ) ≤ 2)
          (by norm_num : 1 ≤ 1024)
        simpa using this
      intro hcon
      linarith
    unfold toDouble
    rw [if_neg hfin]
    by_cases hq : 0 ≤ q
    · rw [if_pos hq]
      refine ⟨roundMag q, rfl, ?_⟩
      rw [abs_of_nonneg hq] at he
      exact he
    · rw [if_neg hq]
      refine ⟨-roundMag q, rfl, ?_⟩
      have hq' : q < 0 := not_le.mp hq
      rw [abs_of_neg hq'] at he
      have : -roundMag q - q = -(roundMag q - -q) := by ring
      rw [this, abs_neg]
      exact he

theorem tiny_le : (2 : ℚ) ^ (-1022 : ℤ) ≤ 1 / 4096 := by
  have := zpow_le_zpow_right₀ (by norm_num : (1 : ℚ) ≤ 2) (by norm_num : (-1022 : ℤ) ≤ -12)
  have h12 : (2 : ℚ) ^ (-12 : ℤ) = 1 / 4096 := by norm_num
  rw [h12] at this
  exact this

theorem tinier_le : (2 : ℚ) ^ (-1075 : ℤ) ≤ 1 / 4096 := by
  have := zpow_le_zpow_right₀ (by norm_num : (1 : ℚ) ≤ 2) (by norm_num : (-1075 : ℤ) ≤ -12)
  have h12 : (2 : ℚ) ^ (-12 : ℤ) = 1 / 4096 := by norm_num
  rw [h12] at this
  exact this

theorem huge_ge : (4503599627370496 : ℚ) ≤ (2 : ℚ) ^ (1023 : ℕ) := by
  have := pow_le_pow_right₀ (by norm_num : (1 : ℚ) ≤ 2) (by norm_num : 52 ≤ 1023)
  have h52 : (2 : ℚ) ^ (52 : ℕ) = 4503599627370496 := by norm_num
  rw [h52] at this
  exact this

/-- Error of rounding anywhere below the overflow range. -/
theorem toDouble_error_any (q : ℚ) (hlt : |q| < (2 : ℚ) ^ (1023 : ℕ)) :
    ∃ r, toDouble q = JSNum.fin r ∧ |r - q| ≤ |q| * (1 / 9007199254740992) + 1 / 4096 := by
  rcases le_or_lt ((2 : ℚ) ^ (-1022 : ℤ)) |q| with hn | hs
  · obtain ⟨r, hr, he⟩ := toDouble_error q hn hlt
    exact ⟨r, hr, by linarith⟩
  · obtain ⟨r, hr, he⟩ := toDouble_error_small q hs
    have ht := tinier_le
    have hq : 0 ≤ |q| * (1 / 9007199254740992) := mul_nonneg (abs_nonneg q) (by norm_num)
    refine ⟨r, hr, ?_⟩
    generalize (2 : ℚ) ^ (-1075 : ℤ) = τ at he ht
    linarith

/-- The difference of two binary64 values is rounded with relative error at most
`2^-53`, also in the subnormal range. -/
theorem denominator_error (doc win : ℚ) (hdoc : IsDouble doc) (hwin : IsDouble win)
    (hlt : win < doc) :
    abs (roundMag (doc - win) - (doc - win)) ≤ (doc - win) * (1 / 9007199254740992) := by
  have hD : 0 < doc - win := by linarith
  have habs : |doc - win| = doc - win := abs_of_pos hD
  rcases le_or_lt ((2 : ℚ) ^ (-1022 : ℤ)) |doc - win| with hn | hs
  · have he := roundMag_error (doc - win)
    have hu := ulp_le_of_normal (doc - win) hn
    rw [habs] at he hu
    calc abs (roundMag (doc - win) - (doc - win)) ≤ ulp (doc - win) / 2 := he
      _ ≤ (doc - win) * (1 / 4503599627370496) / 2 := by linarith
      _ = (doc - win) * (1 / 9007199254740992) := by ring
  · have hpos : 0 < |doc - win| := by rw [habs]; exact hD
    have hlog : Int.log 2 |doc - win| < -1022 := by
      have := (Int.lt_zpow_iff_log_lt (b := 2) (by norm_num) (x := -1022) hpos).mp
        (by simpa using hs)
      exact this
    have hb : binade (doc - win) = -1022 := by
      unfold binade
      exact max_eq_right (le_of_lt hlog)
    have hu : ulp (doc - win) = (2 : ℚ) ^ (-1074 : ℤ) := by
      unfold ulp
      rw [hb]
      norm_num
    obtain ⟨k, hk⟩ := isDouble_grid doc hdoc
    obtain ⟨l, hl⟩ := isDouble_grid win hwin
    have hgrid : |doc - win| = ((k - l : ℤ) : ℚ) * ulp (doc - win) := by
      rw [habs, hu, hk, hl]
      push_cast
      ring
    have hexact := roundMag_of_int_mul (doc - win) (k - l) hgrid
    rw [hexact, habs, sub_self, abs_zero]
    positivity

/-! ## Character counter -/

theorem binade_natCast (n e : ℕ) (h1 : 2 ^ e ≤ n) (h2 : n < 2 ^ (e + 1)) :
    binade (n : ℚ) = (e : ℤ) := by
  have hpos : 0 < n := lt_of_lt_of_le (by positivity) h1
  have habs : |(n : ℚ)| = (n : ℚ) := abs_of_nonneg (by positivity)
  have hlog : Nat.log 2 n = e :=
    Nat.log_eq_of_pow_le_of_lt_pow h1 h2
  unfold binade
  rw [habs, Int.log_natCast, hlog]
  apply max_eq_left
  omega

theorem toDouble_two_pow_53 :
    toDouble 9007199254740992 = JSNum.fin 9007199254740992 := by
  have hb : binade ((9007199254740992 : ℕ) : ℚ) = ((53 : ℕ) : ℤ) :=
    binade_natCast 9007199254740992 53 (by norm_num) (by norm_num)
  have hu : ulp ((9007199254740992 : ℕ) : ℚ) = 2 := by
    unfold ulp
    rw [hb]
    norm_num
  have hr : roundMag ((9007199254740992 : ℕ) : ℚ) = 9007199254740992 := by
    have := roundMag_of_int_mul ((9007199254740992 : ℕ) : ℚ) 4503599627370496 (by
      rw [hu]
      norm_num)
    rw [this]
    norm_num
  have h := (isDouble_nonneg_iff ((9007199254740992 : ℕ) : ℚ) (by positivity)).mpr
    ⟨by rw [hr]; norm_num, by rw [hr]; norm_num⟩
  simpa [IsDouble] using h

theorem toDouble_two_pow_53_succ :
    toDouble 9007199254740993 = JSNum.fin 9007199254740992 := by
  have hb : binade ((9007199254740993 : ℕ) : ℚ) = ((53 : ℕ) : ℤ) :=
    binade_natCast 9007199254740993 53 (by norm_num) (by norm_num)
  have hu : ulp ((9007199254740993 : ℕ) : ℚ) = 2 := by
    unfold ulp
    rw [hb]
    norm_num
  have hfl : ⌊(9007199254740993 : ℚ) / 2⌋ = 4503599627370496 := by
    rw [Int.floor_eq_iff]
    constructor <;> norm_num
  have hrhe : roundHalfEven ((9007199254740993 : ℚ) / 2) = 4503599627370496 := by
    unfold roundHalfEven
    rw [hfl]
    norm_num
  have hr : roundMag ((9007199254740993 : ℕ) : ℚ) = 9007199254740992 := by
    unfold roundMag
    rw [hu]
    have habs : |((9007199254740993 : ℕ) : ℚ)| = (9007199254740993 : ℚ) := by
      rw [abs_of_nonneg (by positivity)]
      norm_num
    rw [habs, hrhe]
    norm_num
  have h := toDouble_of_nonneg ((9007199254740993 : ℕ) : ℚ) (by positivity)
  rw [hr] at h
  have hlt : ¬ (2 : ℚ) ^ (1024 : ℕ) ≤ 9007199254740992 := by norm_num
  rw [if_neg hlt] at h
  simpa using h

theorem updateCounter_text (maxLength : JSNum) (value : JSString) (counter : Counter) :
    (updateCounter maxLength value counter).text =
      CounterText.remaining (JSNum.sub maxLength (JSNum.fin value.length)) := by
  unfold updateCounter
  simp only
  split <;> rfl

/-- C4 (as stated, refuted). With `maxlength="9007199254740993"` and an empty text
area the subtraction is carried out on the binary64 value 9007199254740992, and
that, not `M - L`, is the number shown. -/
theorem updateCounter_precision_counterexample :
    ([] : JSString).length ≤ 9007199254740993 ∧
      (updateCounter (attrNumber 9007199254740993) [] newCounter).text =
        CounterText.remaining (JSNum.fin 9007199254740992) ∧
      (9007199254740992 : ℚ) ≠ ((9007199254740993 - ([] : JSString).length : ℕ) : ℚ) := by
  refine ⟨Nat.zero_le _, ?_, by norm_num⟩
  have h1 : attrNumber 9007199254740993 = JSNum.fin 9007199254740992 := by
    unfold attrNumber
    simpa using toDouble_two_pow_53_succ
  have h2 : JSNum.sub (JSNum.fin 9007199254740992) (JSNum.fin (([] : JSString).length : ℚ)) =
      JSNum.fin 9007199254740992 := by
    show toDouble (9007199254740992 - (([] : JSString).length : ℚ)) = _
    simpa using toDouble_two_pow_53
  rw [updateCounter_text, h1, h2]

/-- C4 (amended). For a text area with maximum length `M < 2^53` and content of length
`L ≤ M` the counter reads `<M - L> characters remaining`; it carries `text-warning`
and not `text-muted` when `M - L < 20`, and `text-muted` and not `text-warning`
otherwise, whatever classes it carried. -/
theorem updateCounter_spec (M : ℕ) (value : JSString) (counter : Counter)
    (hM : M < 2 ^ 53) (hL : value.length ≤ M) :
    (updateCounter (attrNumber M) value counter).text =
        CounterText.remaining (JSNum.fin ((M - value.length : ℕ) : ℚ)) ∧
      (M - value.length < 20 →
        hasClass (updateCounter (attrNumber M) value counter).classes "text-warning" = true ∧
        hasClass (updateCounter (attrNumber M) value counter).classes "text-muted" = false) ∧
      (¬ M - value.length < 20 →
        hasClass (updateCounter (attrNumber M) value counter).classes "text-muted" = true ∧
        hasClass (updateCounter (attrNumber M) value counter).classes "text-warning" =
          false) := by
  have hwm : ("text-warning" == "text-muted") = false := by decide
  have hmw : ("text-muted" == "text-warning") = false := by decide
  have h1 : attrNumber M = JSNum.fin (M : ℚ) := isDouble_natCast M hM
  have hcast : (M : ℚ) - (value.length : ℚ) = ((M - value.length : ℕ) : ℚ) := by
    rw [Nat.cast_sub hL]
  have h2 : JSNum.sub (JSNum.fin (M : ℚ)) (JSNum.fin (value.length : ℚ)) =
      JSNum.fin ((M - value.length : ℕ) : ℚ) := by
    show toDouble ((M : ℚ) - (value.length : ℚ)) = _
    rw [hcast]
    exact isDouble_natCast (M - value.length) (by omega)
  have hlt : JSNum.lt (JSNum.fin ((M - value.length : ℕ) : ℚ)) (JSNum.fin 20) =
      decide (M - value.length < 20) := by
    show decide (((M - value.length : ℕ) : ℚ) < 20) = _
    congr 1
    rw [eq_iff_iff]
    exact_mod_cast Iff.rfl
  unfold updateCounter
  simp only [h1, h2, hlt]
  refine ⟨?_, ?_, ?_⟩
  · split <;> rfl
  · intro h
    simp [h, hasClass_removeClass, hasClass_addClass, hwm]
  · intro h
    simp [h, hasClass_removeClass, hasClass_addClass, hmw]

/-- Instance of `updateCounter_spec`: 5 of 100 characters typed into a fresh
counter. -/
theorem updateCounter_spec_witness :
    100 < 2 ^ 53 ∧ (utf16 "hello").length ≤ 100 ∧
      (updateCounter (attrNumber 100) (utf16 "hello") newCounter).text =
        CounterText.remaining (JSNum.fin ((100 - (utf16 "hello").length : ℕ) : ℚ)) ∧
      hasClass (updateCounter (attrNumber 100) (utf16 "hello") newCounter).classes
        "text-muted" = true :=
  ⟨by norm_num, by decide,
    (updateCounter_spec 100 (utf16 "hello") newCounter (by norm_num) (by decide)).1,
    ((updateCounter_spec 100 (utf16 "hello") newCounter (by norm_num)
      (by decide)).2.2 (by decide)).1⟩

/-! ## Reading-progress bar -/

theorem toDouble_zero : toDouble 0 = JSNum.fin 0 := by
  simpa [IsDouble] using isDouble_natCast 0 (by norm_num)

theorem toDouble_one : toDouble 1 = JSNum.fin 1 := by
  simpa [IsDouble] using isDouble_natCast 1 (by norm_num)

theorem toDouble_hundred : toDouble 100 = JSNum.fin 100 := by
  simpa [IsDouble] using isDouble_natCast 100 (by norm_num)

/-- Rounding a value between 0 and a binary64 value `c` stays between 0 and `c`. -/
theorem toDouble_between (y c : ℚ) (hc : IsDouble c) (h0 : 0 ≤ y) (hyc : y ≤ c) :
    ∃ r, toDouble y = JSNum.fin r ∧ 0 ≤ r ∧ r ≤ c := by
  have hc0 : 0 ≤ c := le_trans h0 hyc
  obtain ⟨hc1, hc2⟩ := (isDouble_nonneg_iff c hc0).mp hc
  rcases lt_or_eq_of_le h0 with hpos | hzero
  · have hle := roundMag_le_of_le y c hpos hyc hc1
    rw [toDouble_of_nonneg y h0]
    have hlt : ¬ (2 : ℚ) ^ (1024 : ℕ) ≤ roundMag y := by
      rw [hc1] at hc2
      exact not_le.mpr (lt_of_le_of_lt hle hc2)
    rw [if_neg hlt]
    exact ⟨roundMag y, rfl, roundMag_nonneg y, hle⟩
  · rw [← hzero, toDouble_zero]
    exact ⟨0, rfl, le_refl _, hc0⟩

theorem double_gap (a b : ℚ) (ha : IsDouble a) (hb : IsDouble b) (hlt : b < a) :
    (2 : ℚ) ^ (-1074 : ℤ) ≤ a - b := by
  obtain ⟨k, hk⟩ := isDouble_grid a ha
  obtain ⟨l, hl⟩ := isDouble_grid b hb
  have hg : (0 : ℚ) < (2 : ℚ) ^ (-1074 : ℤ) := by positivity
  have hkl : l < k := by
    by_contra hcon
    have hle : (k : ℚ) ≤ (l : ℚ) := by exact_mod_cast not_lt.mp hcon
    have : a ≤ b := by
      rw [hk, hl]
      exact mul_le_mul_of_nonneg_right hle (le_of_lt hg)
    exact absurd hlt (not_lt.mpr this)
  have h1 : (1 : ℚ) ≤ (k : ℚ) - (l : ℚ) := by
    have : (1 : ℤ) ≤ k - l := by omega
    exact_mod_cast this
  have h2 : a - b = ((k : ℚ) - (l : ℚ)) * (2 : ℚ) ^ (-1074 : ℤ) := by
    rw [hk, hl]
    ring
  rw [h2]
  calc (2 : ℚ) ^ (-1074 : ℤ) = 1 * (2 : ℚ) ^ (-1074 : ℤ) := by ring
    _ ≤ ((k : ℚ) - (l : ℚ)) * (2 : ℚ) ^ (-1074 : ℤ) :=
      mul_le_mul_of_nonneg_right h1 (le_of_lt hg)

/-- The denominator `docHeight - winHeight` when the document is taller than the
window: a positive number, or `+∞` on overflow. -/
theorem denominator_pos (doc win : ℚ) (hdoc : IsDouble doc) (hwin : IsDouble win)
    (hlt : win < doc) :
    JSNum.sub (JSNum.fin doc) (JSNum.fin win) = JSNum.posInf ∨
      JSNum.sub (JSNum.fin doc) (JSNum.fin win) = JSNum.fin (roundMag (doc - win)) ∧
        0 < roundMag (doc - win) := by
  have hgap := double_gap doc win hdoc hwin hlt
  have hpos : 0 ≤ doc - win := by linarith
  have hr := roundMag_pos_of_ge (doc - win) hgap
  show toDouble (doc - win) = JSNum.posInf ∨ toDouble (doc - win) = _ ∧ _
  rw [toDouble_of_nonneg _ hpos]
  by_cases h : (2 : ℚ) ^ (1024 : ℕ) ≤ roundMag (doc - win)
  · left
    rw [if_pos h]
  · right
    rw [if_neg h]
    exact ⟨rfl, hr⟩

theorem quotient_error (s D d : ℚ) (hD : 0 < D) (hd : 0 < d)
    (hde : abs (d - D) ≤ D * (1 / 9007199254740992)) :
    |s / d - s / D| ≤ |s / d| * (1 / 9007199254740992) := by
  have heq : s / d - s / D = s / d * ((D - d) / D) := by
    field_simp
    ring
  have hrel : |(D - d) / D| ≤ 1 / 9007199254740992 := by
    rw [abs_div, abs_of_pos hD, div_le_iff₀ hD, abs_sub_comm]
    linarith
  rw [heq, abs_mul]
  exact mul_le_mul_of_nonneg_left hrel (abs_nonneg _)

theorem progress_eval (s doc win d y x : ℚ) (hd : JSNum.sub (JSNum.fin doc) (JSNum.fin win) =
      JSNum.fin d) (hd0 : d ≠ 0) (hy : toDouble (s / d) = JSNum.fin y)
    (hx : toDouble (y * 100) = JSNum.fin x) :
    readingProgress s doc win = JSNum.fin ((⌊x + 1 / 2⌋ : ℤ) : ℚ) := by
  simp only [readingProgress]
  rw [hd]
  have hdiv : JSNum.div (JSNum.fin s) (JSNum.fin d) = toDouble (s / d) := by
    simp [JSNum.div, hd0]
  rw [hdiv, hy]
  show JSNum.round (toDouble (y * 100)) = _
  rw [hx]
  rfl

/-- Away from the half-integers the width is the exactly rounded percentage. -/
theorem progress_agrees (s doc win d : ℚ) (hdoc : IsDouble doc) (hwin : IsDouble win)
    (hlt : win < doc)
    (hd : JSNum.sub (JSNum.fin doc) (JSNum.fin win) = JSNum.fin d) (m : ℤ)
    (h1 : (m : ℚ) - 1 / 2 + |s / (doc - win) * 100| / 1125899906842624 ≤
      s / (doc - win) * 100)
    (h2 : s / (doc - win) * 100 + |s / (doc - win) * 100| / 1125899906842624 <
      (m : ℚ) + 1 / 2) :
    readingProgress s doc win = JSNum.fin (m : ℚ) := by
  have hD : 0 < doc - win := by linarith
  have hdR : d = roundMag (doc - win) ∧ 0 < roundMag (doc - win) := by
    rcases denominator_pos doc win hdoc hwin hlt with hinf | ⟨hfin, hpos⟩
    · rw [hinf] at hd
      exact JSNum.noConfusion hd
    · rw [hfin] at hd
      exact ⟨(JSNum.fin.inj hd).symm, hpos⟩
  have hdpos : 0 < d := by rw [hdR.1]; exact hdR.2
  have hde : abs (d - (doc - win)) ≤ (doc - win) * (1 / 9007199254740992) := by
    rw [hdR.1]
    exact denominator_error doc win hdoc hwin hlt
  have key := quotient_error s (doc - win) d hD hdpos hde
  have habsv : |s / (doc - win) * 100| = 100 * |s / (doc - win)| := by
    rw [abs_mul, abs_of_pos (by norm_num : (0 : ℚ) < 100)]
    ring
  rw [habsv] at h1 h2
  have tri1 := abs_sub_abs_le_abs_sub (s / d) (s / (doc - win))
  have tri2 := abs_sub_abs_le_abs_sub (s / (doc - win)) (s / d)
  rw [abs_sub_comm (s / (doc - win)) (s / d)] at tri2
  have hA0 := abs_nonneg (s / (doc - win))
  have hA1 := abs_nonneg (s / d)
  have hkey := abs_le.mp key
  generalize hq0 : s / (doc - win) = q0 at *
  generalize hq1 : s / d = q1 at *
  generalize hA0e : |q0| = A0 at *
  generalize hA1e : |q1| = A1 at *
  generalize hE1 : |q1 - q0| = E1 at *
  have hA1le : A1 ≤ 2 * A0 := by linarith
  have hA0le : A0 ≤ 2 * A1 := by linarith
  have hA0lt : A0 < 4503599627370496 := by linarith
  have hl1 : |q1| < (2 : ℚ) ^ (1023 : ℕ) := by
    have := huge_ge
    rw [hA1e]
    generalize (2 : ℚ) ^ (1023 : ℕ) = H at *
    linarith
  by_cases hv : 1 / 800 ≤ A0
  · -- the quotient is in the normal range
    have hn1 : (2 : ℚ) ^ (-1022 : ℤ) ≤ |q1| := by
      have := tiny_le
      rw [hA1e]
      generalize (2 : ℚ) ^ (-1022 : ℤ) = T at *
      linarith
    obtain ⟨y, hy, hey⟩ := toDouble_error q1 hn1 hl1
    rw [hA1e] at hey
    have tri3 := abs_sub_abs_le_abs_sub y q1
    have tri4 := abs_sub_abs_le_abs_sub q1 y
    rw [abs_sub_comm q1 y, hA1e] at tri4
    rw [hA1e] at tri3
    have hA2 := abs_nonneg y
    have habst : |y * 100| = 100 * |y| := by
      rw [abs_mul, abs_of_pos (by norm_num : (0 : ℚ) < 100)]
      ring
    have hn2 : (2 : ℚ) ^ (-1022 : ℤ) ≤ |y * 100| := by
      have := tiny_le
      rw [habst]
      generalize (2 : ℚ) ^ (-1022 : ℤ) = T at *
      linarith
    have hl2 : |y * 100| < (2 : ℚ) ^ (1023 : ℕ) := by
      have := huge_ge
      rw [habst]
      generalize (2 : ℚ) ^ (1023 : ℕ) = H at *
      linarith
    obtain ⟨x, hx, hex⟩ := toDouble_error (y * 100) hn2 hl2
    rw [habst] at hex
    rw [← hq1] at hy
    rw [progress_eval s doc win d y x hd (ne_of_gt hdpos) hy hx]
    have hey' := abs_le.mp hey
    have hex' := abs_le.mp hex
    have hfloor : ⌊x + 1 / 2⌋ = m := by
      rw [Int.floor_eq_iff]
      generalize |y| = A2 at *
      constructor <;> linarith
    rw [hfloor]
  · -- the quotient is small: the width is 0
    have hv' : A0 < 1 / 800 := not_le.mp hv
    obtain ⟨y, hy, hey⟩ := toDouble_error_any q1 hl1
    rw [hA1e] at hey
    have tri3 := abs_sub_abs_le_abs_sub y q1
    rw [hA1e] at tri3
    have hA2 := abs_nonneg y
    have habst : |y * 100| = 100 * |y| := by
      rw [abs_mul, abs_of_pos (by norm_num : (0 : ℚ) < 100)]
      ring
    have hl2 : |y * 100| < (2 : ℚ) ^ (1023 : ℕ) := by
      have := huge_ge
      rw [habst]
      generalize (2 : ℚ) ^ (1023 : ℕ) = H at *
      linarith
    obtain ⟨x, hx, hex⟩ := toDouble_error_any (y * 100) hl2
    rw [habst] at hex
    rw [← hq1] at hy
    rw [progress_eval s doc win d y x hd (ne_of_gt hdpos) hy hx]
    have hex' := abs_le.mp hex
    have hyle := le_abs_self y
    have hyge := neg_abs_le y
    have hq0le := le_abs_self q0
    have hq0ge := neg_abs_le q0
    rw [hA0e] at hq0le hq0ge
    have hm0 : m = 0 := by
      have hlo : (m : ℚ) < 1 := by linarith
      have hhi : (-1 : ℚ) < (m : ℚ) := by linarith
      have hlo' : m < 1 := by exact_mod_cast hlo
      have hhi' : -1 < m := by exact_mod_cast hhi
      omega
    have hfloor : ⌊x + 1 / 2⌋ = m := by
      rw [hm0, Int.floor_eq_iff]
      generalize |y| = A2 at *
      constructor
      · push_cast
        linarith
      · push_cast
        linarith
    rw [hfloor]

theorem roundHalfEven_of_lt (y : ℚ) (k : ℤ) (h1 : (k : ℚ) ≤ y) (h2 : y < (k : ℚ) + 1 / 2) :
    roundHalfEven y = k := by
  have hfl : ⌊y⌋ = k := by
    rw [Int.floor_eq_iff]
    constructor
    · exact h1
    · linarith
  unfold roundHalfEven
  rw [hfl]
  have : y - (k : ℚ) < 1 / 2 := by linarith
  rw [if_pos this]

/-- Evaluation of a rounding whose scaled argument lies in the lower half of a unit
interval. -/
theorem toDouble_eval (q r : ℚ) (e k : ℤ) (he : -1022 ≤ e) (h1 : (2 : ℚ) ^ e ≤ q)
    (h2 : q < (2 : ℚ) ^ (e + 1)) (hk1 : (k : ℚ) ≤ q / (2 : ℚ) ^ (e - 52))
    (hk2 : q / (2 : ℚ) ^ (e - 52) < (k : ℚ) + 1 / 2)
    (hr : r = (k : ℚ) * (2 : ℚ) ^ (e - 52)) (hfin : r < (2 : ℚ) ^ (1024 : ℕ)) :
    toDouble q = JSNum.fin r := by
  have hq : 0 < q := lt_of_lt_of_le (by positivity) h1
  have habs : |q| = q := abs_of_pos hq
  have hlog : Int.log 2 q = e := by
    have ha : e ≤ Int.log 2 q :=
      (Int.zpow_le_iff_le_log (b := 2) (by norm_num) hq).mp (by simpa using h1)
    have hb : Int.log 2 q < e + 1 :=
      (Int.lt_zpow_iff_log_lt (b := 2) (by norm_num) hq).mp (by simpa using h2)
    omega
  have hbin : binade q = e := by
    unfold binade
    rw [habs, hlog]
    exact max_eq_left he
  have hu : ulp q = (2 : ℚ) ^ (e - 52) := by
    unfold ulp
    rw [hbin]
  have hmag : roundMag q = r := by
    unfold roundMag
    rw [habs, hu, roundHalfEven_of_lt _ k hk1 hk2, hr]
  rw [toDouble_of_nonneg q (le_of_lt hq), hmag, if_neg (not_le.mpr hfin)]

theorem toDouble_145 :
    toDouble (29 / 200) = JSNum.fin (5224175567749775 / 36028797018963968) := by
  apply toDouble_eval (29 / 200) _ (-3) 5224175567749775 <;> norm_num

theorem toDouble_145_times_100 :
    toDouble (5224175567749775 / 36028797018963968 * 100) =
      JSNum.fin (8162774324609023 / 562949953421312) := by
  apply toDouble_eval _ _ 3 8162774324609023 <;> norm_num

/-- C7 (as stated, refuted). At `scrollTop = 29` in a 1000px document with an 800px
window the exact value is 14.5, which the formula rounds to 15; the handler's
quotient and product are binary64 values, the product is 14.499999999999998, and
the width is set to 14%. -/
theorem readingProgress_tie_counterexample :
    (800 : ℚ) < 1000 ∧
      ⌊(29 : ℚ) / (1000 - 800) * 100 + 1 / 2⌋ = 15 ∧
      readingProgress 29 1000 800 = JSNum.fin 14 := by
  refine ⟨by norm_num, ?_, ?_⟩
  · rw [Int.floor_eq_iff]
    constructor <;> norm_num
  · have h200 : toDouble 200 = JSNum.fin 200 := by
      simpa [IsDouble] using isDouble_natCast 200 (by norm_num)
    have e1 : JSNum.sub (JSNum.fin 1000) (JSNum.fin 800) = JSNum.fin 200 := by
      show toDouble (1000 - 800) = JSNum.fin 200
      norm_num [h200]
    rw [progress_eval 29 1000 800 200 _ _ e1 (by norm_num) toDouble_145
      toDouble_145_times_100]
    have hfl : ⌊(8162774324609023 : ℚ) / 562949953421312 + 1 / 2⌋ = 14 := by
      rw [Int.floor_eq_iff]
      constructor <;> norm_num
    rw [hfl]
    norm_num

/-- C7 (amended). With the document taller than the window (and the subtraction not
overflowing), the width is the exact percentage `v = scrollTop / (docHeight -
winHeight) * 100` rounded to the nearest integer, halves upward, whenever `v` is
farther than `|v| / 2^50` from the two ends of its rounding interval; closer to a
half than that, the binary64 rounding of the quotient and of the product decides. It
is 0 at `scrollTop = 0` and 100 at `scrollTop = docHeight - winHeight`. -/
theorem readingProgress_spec (s doc win : ℚ) (hs : IsDouble s) (hdoc : IsDouble doc)
    (hwin : IsDouble win) (hlt : win < doc) :
    (∀ d : ℚ, JSNum.sub (JSNum.fin doc) (JSNum.fin win) = JSNum.fin d →
      ((⌊s / (doc - win) * 100 + 1 / 2⌋ : ℤ) : ℚ) - 1 / 2 +
          |s / (doc - win) * 100| / 1125899906842624 ≤ s / (doc - win) * 100 →
      s / (doc - win) * 100 + |s / (doc - win) * 100| / 1125899906842624 <
          ((⌊s / (doc - win) * 100 + 1 / 2⌋ : ℤ) : ℚ) + 1 / 2 →
      readingProgress s doc win =
        JSNum.fin ((⌊s / (doc - win) * 100 + 1 / 2⌋ : ℤ) : ℚ)) ∧
    (s = 0 → readingProgress s doc win = JSNum.fin 0) ∧
    (s = doc - win → readingProgress s doc win = JSNum.fin 100) := by
  refine ⟨?_, ?_, ?_⟩
  · intro d hd h1 h2
    exact progress_agrees s doc win d hdoc hwin hlt hd _ h1 h2
  · intro h0
    subst h0
    simp only [readingProgress]
    rcases denominator_pos doc win hdoc hwin hlt with hd | ⟨hd, hpos⟩
    · rw [hd]
      simp [JSNum.div, JSNum.mul, JSNum.round, toDouble_zero]
      norm_num
    · rw [hd]
      simp [JSNum.div, JSNum.mul, JSNum.round, toDouble_zero, ne_of_gt hpos]
      norm_num
  · intro hsd
    have hspos : 0 < s := by rw [hsd]; linarith
    simp only [readingProgress]
    have hd : JSNum.sub (JSNum.fin doc) (JSNum.fin win) = JSNum.fin s := by
      show toDouble (doc - win) = JSNum.fin s
      rw [← hsd]
      exact hs
    rw [hd]
    have hdiv : JSNum.div (JSNum.fin s) (JSNum.fin s) = JSNum.fin 1 := by
      simp [JSNum.div, ne_of_gt hspos, toDouble_one]
    rw [hdiv]
    have hmul : JSNum.mul (JSNum.fin 1) (JSNum.fin 100) = JSNum.fin 100 := by
      simp [JSNum.mul, toDouble_hundred]
    rw [hmul]
    simp only [JSNum.round]
    norm_num

/-- Instance of `readingProgress_spec`: a 1000px document in an 800px window,
scrolled by 50px (25%) and to the bottom (100%). -/
theorem readingProgress_spec_witness :
    IsDouble 50 ∧ IsDouble 200 ∧ IsDouble 1000 ∧ IsDouble 800 ∧ (800 : ℚ) < 1000 ∧
      ⌊(50 : ℚ) / (1000 - 800) * 100 + 1 / 2⌋ = 25 ∧
      readingProgress 50 1000 800 =
        JSNum.fin ((⌊(50 : ℚ) / (1000 - 800) * 100 + 1 / 2⌋ : ℤ) : ℚ) ∧
      readingProgress 200 1000 800 = JSNum.fin 100 := by
  have h50 : IsDouble 50 := by simpa using isDouble_natCast 50 (by norm_num)
  have h200 : IsDouble 200 := by simpa using isDouble_natCast 200 (by norm_num)
  have h1000 : IsDouble 1000 := by simpa using isDouble_natCast 1000 (by norm_num)
  have h800 : IsDouble 800 := by simpa using isDouble_natCast 800 (by norm_num)
  have hfl : ⌊(50 : ℚ) / (1000 - 800) * 100 + 1 / 2⌋ = 25 := by
    rw [Int.floor_eq_iff]
    constructor <;> norm_num
  have hsub : JSNum.sub (JSNum.fin 1000) (JSNum.fin 800) = JSNum.fin 200 := by
    show toDouble (1000 - 800) = JSNum.fin 200
    have : (1000 : ℚ) - 800 = 200 := by norm_num
    rw [this]
    exact h200
  have habs : |(50 : ℚ) / (1000 - 800) * 100| = 25 := by
    have : (50 : ℚ) / (1000 - 800) * 100 = 25 := by norm_num
    rw [this]
    exact abs_of_pos (by norm_num)
  exact ⟨h50, h200, h1000, h800, by norm_num, hfl,
    (readingProgress_spec 50 1000 800 h50 h1000 h800 (by norm_num)).1 200 hsub
      (by rw [hfl, habs]; norm_num) (by rw [hfl, habs]; norm_num),
    (readingProgress_spec 200 1000 800 h200 h1000 h800 (by norm_num)).2.2 (by norm_num)⟩

/-- C8 (as stated, refuted). With the document exactly as tall as the window the
value is `NaN`; with a scroll offset beyond `docHeight - winHeight` it exceeds
100. -/
theorem readingProgress_range_counterexample :
    readingProgress 0 800 800 = JSNum.nan ∧
      readingProgress 400 1000 800 = JSNum.fin 200 := by
  have h200 : toDouble 200 = JSNum.fin 200 := by
    simpa [IsDouble] using isDouble_natCast 200 (by norm_num)
  have h2 : toDouble 2 = JSNum.fin 2 := by
    simpa [IsDouble] using isDouble_natCast 2 (by norm_num)
  constructor
  · simp only [readingProgress]
    simp [JSNum.sub, JSNum.div, JSNum.mul, JSNum.round, toDouble_zero]
  · simp only [readingProgress]
    have e1 : JSNum.sub (JSNum.fin 1000) (JSNum.fin 800) = JSNum.fin 200 := by
      show toDouble (1000 - 800) = JSNum.fin 200
      norm_num [h200]
    have e2 : JSNum.div (JSNum.fin 400) (JSNum.fin 200) = JSNum.fin 2 := by
      simp only [JSNum.div]
      norm_num [h2]
    have e3 : JSNum.mul (JSNum.fin 2) (JSNum.fin 100) = JSNum.fin 200 := by
      show toDouble (2 * 100) = JSNum.fin 200
      norm_num [h200]
    rw [e1, e2, e3]
    simp only [JSNum.round]
    norm_num

/-- C8 (amended). With the document taller than the window and a scroll offset
between 0 and `docHeight - winHeight`, the value written as the bar's width is an
integer percentage between 0 and 100. -/
theorem readingProgress_in_range (s doc win : ℚ) (hs : IsDouble s) (hdoc : IsDouble doc)
    (hwin : IsDouble win) (h0 : 0 ≤ s) (hlt : win < doc) (hle : s ≤ doc - win) :
    ∃ n : ℤ, readingProgress s doc win = JSNum.fin (n : ℚ) ∧ 0 ≤ n ∧ n ≤ 100 := by
  have hone : IsDouble 1 := toDouble_one
  have hhundred : IsDouble 100 := toDouble_hundred
  have hfinal : ∀ y : ℚ, 0 ≤ y → y ≤ 1 →
      ∃ n : ℤ, JSNum.round (JSNum.mul (toDouble y) (JSNum.fin 100)) = JSNum.fin (n : ℚ) ∧
        0 ≤ n ∧ n ≤ 100 := by
    intro y hy0 hy1
    obtain ⟨r, hr, hr0, hr1⟩ := toDouble_between y 1 hone hy0 hy1
    obtain ⟨z, hz, hz0, hz1⟩ := toDouble_between (r * 100) 100 hhundred
      (by positivity) (by linarith)
    rw [hr]
    show ∃ n : ℤ, JSNum.round (toDouble (r * 100)) = _ ∧ _
    rw [hz]
    refine ⟨⌊z + 1 / 2⌋, rfl, ?_, ?_⟩
    · apply Int.floor_nonneg.mpr
      linarith
    · have hlt' : z + 1 / 2 < ((101 : ℤ) : ℚ) := by
        push_cast
        linarith
      have := Int.floor_lt.mpr hlt'
      omega
  simp only [readingProgress]
  rcases denominator_pos doc win hdoc hwin hlt with hd | ⟨hd, hpos⟩
  · rw [hd]
    refine ⟨0, ?_, le_refl _, by norm_num⟩
    simp [JSNum.div, JSNum.mul, JSNum.round, toDouble_zero]
    norm_num
  · rw [hd]
    have hsr : s ≤ roundMag (doc - win) := by
      rcases lt_or_eq_of_le h0 with hsp | hsz
      · exact roundMag_ge_of_ge (doc - win) s hsp hle
          ((isDouble_nonneg_iff s h0).mp hs).1
      · rw [← hsz]
        exact le_of_lt hpos
    have hdiv : JSNum.div (JSNum.fin s) (JSNum.fin (roundMag (doc - win))) =
        toDouble (s / roundMag (doc - win)) := by
      simp [JSNum.div, ne_of_gt hpos]
    rw [hdiv]
    exact hfinal _ (div_nonneg h0 (le_of_lt hpos)) ((div_le_one hpos).mpr hsr)

/-- Instance of `readingProgress_in_range`: a 1000px document in an 800px window,
scrolled to the bottom. -/
theorem readingProgress_in_range_witness :
    IsDouble 200 ∧ IsDouble 1000 ∧ IsDouble 800 ∧ (0 : ℚ) ≤ 200 ∧ (800 : ℚ) < 1000 ∧
      (200 : ℚ) ≤ 1000 - 800 ∧
      ∃ n : ℤ, readingProgress 200 1000 800 = JSNum.fin (n : ℚ) ∧ 0 ≤ n ∧ n ≤ 100 :=
  ⟨by simpa using isDouble_natCast 200 (by norm_num),
    by simpa using isDouble_natCast 1000 (by norm_num),
    by simpa using isDouble_natCast 800 (by norm_num),
    by norm_num, by norm_num, by norm_num,
    readingProgress_in_range 200 1000 800
      (by simpa using isDouble_natCast 200 (by norm_num))
      (by simpa using isDouble_natCast 1000 (by norm_num))
      (by simpa using isDouble_natCast 800 (by norm_num))
      (by norm_num) (by norm_num) (by norm_num)⟩

end DailyScribbles
